import Mathlib

/-!
Verification development for the node/workflow editor frontend.

This file shallowly embeds the JavaScript functions of the repository in
Lean 4 and proves or refutes the specification's claims about them:

* `createNode` (node factory, src/unnamed/part_000) — embedded twice: a
  value-level (pure) model `createNode` for the functional claims, and a
  heap model `createNodeH` with an explicit store for the frame/aliasing
  claim.
* `handleSchemaKeyEdit` and `updateMessageVariables`
  (src/frontend/src/components/nodes/OutputDisplayNode.jsx; the identical
  copy in NodeOutputDisplay.jsx) — schema-key renaming, moustache
  placeholder rewriting, and the rename effects.
* `saveWorkflow` (src/unnamed/part_001) — the pure workflow-document
  construction, here `saveWorkflowDoc`.
* the numeric-input change handler of
  src/frontend/src/components/nodes/nodeSidebar/NodeSidebar.jsx, here
  `numberInputOnChange`, together with a model of JavaScript `parseFloat`.

JavaScript values are modelled by `JVal`; objects are association lists
with unique keys (as JavaScript guarantees for its objects), and spread /
computed-member / delete operations are modelled by `objSetKey`,
`objSpread`, `jvGet` and `objDelete`.  Code that can raise a `TypeError`
or `SyntaxError` is embedded in `Except Unit`.
-/

/-- Primitive and structured JavaScript values (the fragment used by the
embedded code).  Objects are ordered association lists; JavaScript object
keys are unique, which the embedding assumes where noted. -/
inductive JVal where
  | str : String → JVal
  | num : Int → JVal
  | bool : Bool → JVal
  | null : JVal
  | undef : JVal
  | obj : List (String × JVal) → JVal
  | arr : List JVal → JVal
deriving Repr

/-- Boolean structural equality on `JVal`. -/
def JVal.beq : JVal → JVal → Bool
  | .str a, .str b => a == b
  | .num a, .num b => a == b
  | .bool a, .bool b => a == b
  | .null, .null => true
  | .undef, .undef => true
  | .obj a, .obj b => beqFields a b
  | .arr a, .arr b => beqList a b
  | _, _ => false
where
  beqFields : List (String × JVal) → List (String × JVal) → Bool
    | [], [] => true
    | (k, v) :: rest, (k', v') :: rest' =>
        k == k' && JVal.beq v v' && beqFields rest rest'
    | _, _ => false
  beqList : List JVal → List JVal → Bool
    | [], [] => true
    | v :: rest, v' :: rest' => JVal.beq v v' && beqList rest rest'
    | _, _ => false

mutual

theorem JVal.beq_iff_eq : ∀ a b : JVal, JVal.beq a b = true ↔ a = b
  | .str a, b => by cases b <;> simp [JVal.beq]
  | .num a, b => by cases b <;> simp [JVal.beq]
  | .bool a, b => by cases b <;> simp [JVal.beq]
  | .null, b => by cases b <;> simp [JVal.beq]
  | .undef, b => by cases b <;> simp [JVal.beq]
  | .obj a, b => by
      cases b <;> simp [JVal.beq]
      exact JVal.beqFields_iff_eq a _
  | .arr a, b => by
      cases b <;> simp [JVal.beq]
      exact JVal.beqList_iff_eq a _

theorem JVal.beqFields_iff_eq :
    ∀ a b : List (String × JVal), JVal.beq.beqFields a b = true ↔ a = b
  | [], b => by cases b <;> simp [JVal.beq.beqFields]
  | (k, v) :: rest, b => by
      cases b with
      | nil => simp [JVal.beq.beqFields]
      | cons hd tl =>
        obtain ⟨k', v'⟩ := hd
        simp only [JVal.beq.beqFields, Bool.and_eq_true,
          List.cons.injEq, Prod.mk.injEq]
        rw [JVal.beq_iff_eq v v', JVal.beqFields_iff_eq rest tl]
        simp

theorem JVal.beqList_iff_eq :
    ∀ a b : List JVal, JVal.beq.beqList a b = true ↔ a = b
  | [], b => by cases b <;> simp [JVal.beq.beqList]
  | v :: rest, b => by
      cases b with
      | nil => simp [JVal.beq.beqList]
      | cons hd tl =>
        simp only [JVal.beq.beqList, Bool.and_eq_true, List.cons.injEq]
        rw [JVal.beq_iff_eq v hd, JVal.beqList_iff_eq rest tl]

end

instance : DecidableEq JVal := fun a b =>
  decidable_of_iff (JVal.beq a b = true) (JVal.beq_iff_eq a b)

/-- Nullish test: JavaScript `null` and `undefined` are the only values on
which member access throws and which short-circuit optional chains. -/
def jvIsNullish : JVal → Bool
  | .null => true
  | .undef => true
  | _ => false

/-- Truthiness of a JavaScript value (`if (v)`, `v || w`).  `NaN` does not
occur among the embedded values. -/
def jvTruthy : JVal → Bool
  | .str s => s ≠ ""
  | .num n => n ≠ 0
  | .bool b => b
  | .null => false
  | .undef => false
  | .obj _ => true
  | .arr _ => true

/-- Lookup of the first binding of a key in an object's field list.  On the
unique-key field lists produced by JavaScript objects this is plain key
lookup.  Polymorphic in the value type so that both the value-level and
the heap-level object representations use it. -/
def olookup {α : Type} : List (String × α) → String → Option α
  | [], _ => none
  | (k', v) :: rest, k => if k' = k then some v else olookup rest k

/-- Member access `v[k]` on a non-nullish base: a missing key (and any
primitive base) yields `undefined`.  Built-in properties of primitives are
outside the model; the embedded code never reads them. -/
def jvGet : JVal → String → JVal
  | .obj fields, k => (olookup fields k).getD .undef
  | _, _ => (.undef : JVal)

/-- Optional-chain access `v?.k1?.k2`: short-circuits to `undefined` when a
nullish value is met. -/
def jvChain2 (v : JVal) (k1 k2 : String) : JVal :=
  if jvIsNullish v then .undef
  else
    let x := jvGet v k1
    if jvIsNullish x then .undef else jvGet x k2

/-- Own enumerable entries of a value, as used by object spread
(`\x7b...v\x7d`) and `Object.keys`.  Strings and arrays spread to indexed
entries; other primitives contribute nothing. -/
def jvFields : JVal → List (String × JVal)
  | .obj fields => fields
  | .str s => (s.toList.enum).map fun p => (toString p.1, JVal.str (String.mk [p.2]))
  | .arr elems => (elems.enum).map fun p => (toString p.1, p.2)
  | _ => []

/-- Write of one key into a field list: replaces the binding in place when
the key is present, appends otherwise — JavaScript's property-write /
object-literal update order. -/
def objSetKey {α : Type} (fields : List (String × α)) (k : String) (v : α) :
    List (String × α) :=
  if fields.any fun kv => kv.1 = k then
    fields.map fun kv => if kv.1 = k then (k, v) else kv
  else fields ++ [(k, v)]

/-- Spread of a second field list over a first
(`\x7b...a, ...b\x7d`): later keys win, existing keys keep their position. -/
def objSpread {α : Type} (fields1 fields2 : List (String × α)) :
    List (String × α) :=
  fields2.foldl (fun acc kv => objSetKey acc kv.1 kv.2) fields1

/-- Property deletion `delete o[k]`: removes the binding (all bindings of
the key; on unique-key lists, exactly the one JavaScript removes). -/
def objDelete {α : Type} (fields : List (String × α)) (k : String) :
    List (String × α) :=
  fields.filter fun kv => kv.1 ≠ k

/-- Field list of an object has no repeated keys — the invariant JavaScript
objects maintain; hypotheses use it where a claim depends on it. -/
def objNodupKeys {α : Type} (fields : List (String × α)) : Prop :=
  (fields.map Prod.fst).Nodup

/-- Whitespace characters recognised by the embedded code: the ASCII part
of JavaScript's `\s` class and of `String.prototype.trim` (the keys and
messages manipulated here contain no exotic Unicode whitespace). -/
def isWsChar (c : Char) : Bool :=
  c = ' ' || c = '\t' || c = '\n' || c = '\r' || c = '\x0b' || c = '\x0c'

/-- Identifier characters: ASCII letters, digits and underscore.  Several
theorems restrict schema keys to identifiers, matching the keys the editor
produces. -/
def isIdentChar (c : Char) : Bool :=
  ('a' ≤ c && c ≤ 'z') || ('A' ≤ c && c ≤ 'Z') || ('0' ≤ c && c ≤ '9') || c = '_'

/-- Core of `newKey.replace(/\s+/g, '_')`: every maximal whitespace run
becomes one underscore.  The boolean tracks whether the previous character
was inside a whitespace run (so only the run's first character emits the
underscore). -/
def normWsAux : List Char → Bool → List Char
  | [], _ => []
  | c :: cs, inRun =>
      if isWsChar c then
        if inRun then normWsAux cs true
        else '_' :: normWsAux cs true
      else c :: normWsAux cs false

/-- Embedding of `newKey.replace(/\s+/g, '_')`. -/
def jsNormalizeWs (s : String) : String :=
  String.mk (normWsAux s.toList false)

/-- Embedding of `String.prototype.trim` (ASCII whitespace, see
`isWsChar`). -/
def jsTrim (s : String) : String :=
  String.mk (((s.toList.dropWhile fun c => isWsChar c).reverse.dropWhile
    fun c => isWsChar c).reverse)

/-- Literal-prefix stripping: when the characters of `l` start `s`, remove
them and return the remainder. -/
def stripLit : List Char → List Char → Option (List Char)
  | [], rest => some rest
  | _ :: _, [] => none
  | l :: ls, c :: cs => if l = c then stripLit ls cs else none

theorem stripLit_length :
    ∀ {l s t : List Char}, stripLit l s = some t → t.length ≤ s.length := by
  intro l
  induction l with
  | nil =>
      intro s t h
      simp only [stripLit, Option.some.injEq] at h
      exact h ▸ Nat.le_refl _
  | cons c cs ih =>
      intro s t h
      cases s with
      | nil => simp [stripLit] at h
      | cons d ds =>
          simp only [stripLit] at h
          split at h
          · exact Nat.le_succ_of_le (ih h)
          · exact absurd h (by simp)

/-- Attempt of the compiled regular expression
/\x7b\x7b\s*oldKey\s*\x7d\x7d/ at the head of the character list, returning
the remainder after the match.  For keys without whitespace, braces or
regex metacharacters this reproduces the backtracking regex exactly: the
greedy whitespace runs cannot give characters back to the literals that
follow them. -/
def tryMatch (old : List Char) (s : List Char) : Option (List Char) :=
  match s with
  | c1 :: c2 :: rest =>
      if c1 = '{' ∧ c2 = '{' then
        (stripLit old (dropWs rest)).bind fun rest2 => closeBraces (dropWs rest2)
      else none
  | _ => none
where
  dropWs (s : List Char) : List Char := s.dropWhile fun c => isWsChar c
  closeBraces : List Char → Option (List Char)
    | d1 :: d2 :: tail => if d1 = '}' ∧ d2 = '}' then some tail else none
    | _ => none

/-- GetSubstitution of `String.prototype.replace` for a string replacement
argument: `$$` emits `$`, `$&` the matched substring, `$` followed by a
backquote the part of the original string before the match, `$` followed
by a quote the part after it; any other use of `$` is literal — including
`$n`, because the patterns built here from the identifier keys the
theorems consider contain no capture groups.  The boolean records a
pending `$`. -/
def expandDollar (matched before after : List Char) : Bool → List Char → List Char
  | false, [] => []
  | true, [] => ['$']
  | false, c :: rest =>
      if c = '$' then expandDollar matched before after true rest
      else c :: expandDollar matched before after false rest
  | true, d :: rest =>
      if d = '$' then '$' :: expandDollar matched before after false rest
      else if d = '&' then matched ++ expandDollar matched before after false rest
      else if d = Char.ofNat 96 then
        before ++ expandDollar matched before after false rest
      else if d = Char.ofNat 39 then
        after ++ expandDollar matched before after false rest
      else '$' :: d :: expandDollar matched before after false rest

/-- Global left-to-right replacement driven by `tryMatch`: at each
position, either the whole placeholder token is consumed and replaced by
the `$`-expansion of `rep` (`seen` carries the original text before the
current position, as the `$`-backquote substitution requires), or one
character is emitted — the scan order of `String.prototype.replace` with
the `g` flag, which resumes after each match.  `fuel` only bounds the
recursion (each step strictly shortens the text, so fuel equal to the
text's length is always enough). -/
def replaceTokGo (old rep : List Char) : Nat → List Char → List Char → List Char
  | 0, _, s => s
  | fuel + 1, seen, s =>
      match s with
      | [] => []
      | c :: cs =>
          match tryMatch old (c :: cs) with
          | some tail =>
              expandDollar ((c :: cs).take ((c :: cs).length - tail.length))
                  seen tail false rep ++
                replaceTokGo old rep fuel
                  (seen ++ (c :: cs).take ((c :: cs).length - tail.length)) tail
          | none => c :: replaceTokGo old rep fuel (seen ++ [c]) cs

/-- Embedding of
message.replace(/\x7b\x7b\s*oldKey\s*\x7d\x7d/g, '\x7b\x7b' + newKey + '\x7d\x7d'):
the replacement string is the text '\x7b\x7b' + newKey + '\x7d\x7d',
subject to the `$`-substitution rules of `expandDollar`. -/
def replaceMoustache (oldKey newKey : String) (s : String) : String :=
  String.mk (replaceTokGo oldKey.toList
    ('{' :: '{' :: (newKey.toList ++ ['}', '}'])) s.toList.length [] s.toList)

/-- Source text of the regular expression the code builds:
'\x7b\x7b\\s*' + oldKey + '\\s*\x7d\x7d'. -/
def moustachePattern (oldKey : String) : String :=
  "\x7b\x7b\\s*" ++ oldKey ++ "\\s*\x7d\x7d"

/-- Scanner deciding well-formedness of a regular-expression source string,
modelling whether the JavaScript RegExp constructor accepts it.  The model
checks escape sequences, character-class brackets and group parentheses —
the aspects the patterns built by `moustachePattern` can violate; finer
ECMAScript grammar errors (such as a dangling quantifier) are outside its
scope and outside the scope of the theorems that use it. -/
def regexScan : List Char → Nat → Bool → Bool → Bool
  | [], depth, inClass, esc => !esc && (depth = 0 && !inClass)
  | c :: rest, depth, inClass, esc =>
      if esc then regexScan rest depth inClass false
      else if c = '\\' then regexScan rest depth inClass true
      else if inClass then
        if c = ']' then regexScan rest depth false false
        else regexScan rest depth true false
      else if c = '[' then regexScan rest depth true false
      else if c = '(' then regexScan rest (depth + 1) false false
      else if c = ')' then
        if depth = 0 then false else regexScan rest (depth - 1) false false
      else regexScan rest depth false false

/-- Acceptance of a pattern source by the (modelled) RegExp constructor. -/
def jsRegExpValid (p : String) : Bool :=
  regexScan p.toList 0 false false

/-- Embedding of updateMessageVariables from OutputDisplayNode.jsx (lines
14-19; identical in NodeOutputDisplay.jsx): falsy messages are returned
unchanged; otherwise the RegExp constructor runs (throwing on an
ill-formed pattern, modelled by `jsRegExpValid`) and the moustache tokens
of `oldKey` are rewritten.  A truthy non-string message would make
`.replace` throw. -/
def updateMessageVariables (message : JVal) (oldKey newKey : String) :
    Except Unit JVal :=
  if !jvTruthy message then Except.ok message
  else if !jsRegExpValid (moustachePattern oldKey) then Except.error ()
  else
    match message with
    | .str s => Except.ok (.str (replaceMoustache oldKey newKey s))
    | _ => Except.error ()

/-- Payload of the updateEdgesOnHandleRename action dispatched by
`handleSchemaKeyEdit`. -/
structure EdgeRenamePayload where
  nodeId : String
  oldHandleId : String
  newHandleId : String
  schemaType : String
deriving DecidableEq, Repr

/-- The two store updates issued by a successful `handleSchemaKeyEdit`: the
updateNodeData payload (its new config) and the edge-rename payload. -/
structure RenameEffects where
  newConfig : JVal
  edgeRename : EdgeRenamePayload
deriving DecidableEq, Repr

/-- Embedding of handleSchemaKeyEdit from OutputDisplayNode.jsx lines
42-99 (identical in NodeOutputDisplay.jsx lines 73-130).  Returns
`ok none` for the early return that only closes the rename-editing UI,
`ok (some effects)` for the two dispatched updates, and `error` when the
code throws: reading `[oldKey]` off `nodeData?.config?.[schemaType]` when
that chain is defined but nullish, or a throw inside
`updateMessageVariables`. -/
def handleSchemaKeyEdit (id : String) (nodeData : JVal)
    (oldKey newKey0 schemaType : String) : Except Unit (Option RenameEffects) :=
  let newKey := jsNormalizeWs newKey0
  if oldKey = newKey ∨ jsTrim newKey = "" then Except.ok none
  else do
    let oldVal ←
      if jvIsNullish nodeData then Except.ok JVal.undef
      else
        let c := jvGet nodeData "config"
        if jvIsNullish c then Except.ok JVal.undef
        else
          let sv := jvGet c schemaType
          if jvIsNullish sv then Except.error ()
          else Except.ok (jvGet sv oldKey)
    let updatedSchema :=
      objDelete (objSetKey (jvFields (jvChain2 nodeData "config" schemaType))
        newKey oldVal) oldKey
    let configBase :=
      if jvIsNullish nodeData then JVal.undef else jvGet nodeData "config"
    let updatedConfig0 :=
      objSetKey (jvFields configBase) schemaType (JVal.obj updatedSchema)
    let updatedConfig ←
      if schemaType = "input_schema" then do
        let cfg1 ←
          if jvTruthy (jvChain2 nodeData "config" "system_message") then do
            let m ← updateMessageVariables
              (jvChain2 nodeData "config" "system_message") oldKey newKey
            pure (objSetKey updatedConfig0 "system_message" m)
          else pure updatedConfig0
        if jvTruthy (jvChain2 nodeData "config" "user_message") then do
          let m ← updateMessageVariables
            (jvChain2 nodeData "config" "user_message") oldKey newKey
          pure (objSetKey cfg1 "user_message" m)
        else pure cfg1
      else pure updatedConfig0
    pure (some ⟨JVal.obj updatedConfig, ⟨id, oldKey, newKey, schemaType⟩⟩)

/-- Graph edge as kept by the store (the fields the rename logic uses). -/
structure Edge where
  source : String
  sourceHandle : String
  target : String
  targetHandle : String
deriving DecidableEq, Repr

/-- Modelled from the spec: the store reducer behind the
updateEdgesOnHandleRename action (flowSlice) is not among the supplied
sources; per the spec it "finds every edge whose
sourceHandle/targetHandle (matching the renamed node and schema side)
equals oldKey and rewrites it to newKey" — the input side binds
targetHandle on edges into the node, the output side binds sourceHandle on
edges out of it. -/
def updateEdgesOnHandleRename (edges : List Edge) (p : EdgeRenamePayload) :
    List Edge :=
  edges.map fun e =>
    if p.schemaType = "input_schema" then
      if e.target = p.nodeId ∧ e.targetHandle = p.oldHandleId then
        { e with targetHandle := p.newHandleId }
      else e
    else
      if e.source = p.nodeId ∧ e.sourceHandle = p.oldHandleId then
        { e with sourceHandle := p.newHandleId }
      else e

/-- Property assignment `o.k = v` at value level: writes the key on an
object and is a no-op on other (non-nullish) values, as in sloppy-mode
JavaScript; the embedded code only reaches it with object receivers. -/
def jvSetKeyV (v : JVal) (k : String) (w : JVal) : JVal :=
  match v with
  | .obj fields => .obj (objSetKey fields k w)
  | _ => v

/-- Search of the type catalog: `for (const category in nodeTypes)` in
insertion order, with `nodeTypes[category].find((node) => node.name ===
type)` inside each category. -/
def findTemplate (nodeTypes : List (String × List JVal)) (type : String) :
    Option JVal :=
  match nodeTypes with
  | [] => none
  | (_, templates) :: rest =>
      match templates.find? fun t => decide (jvGet t "name" = JVal.str type) with
      | some t => some t
      | none => findTemplate rest type

/-- Stand-in for `uuidv4()` of the external uuid package: a fresh random
identifier, opaque to every claim (the theorems about node records assume
a truthy caller-supplied id, in which case the fallback is not taken). -/
def uuidPlaceholder : String := "uuid-v4-fresh"

/-- Embedding of createNode (src/unnamed/part_000).  `cloneDeep` is the
identity at value level (the heap model `createNodeH` below accounts for
sharing).  The `= \x7b\x7d` parameter default applies when the argument is
`undefined`; a `null` additionalData throws at
`additionalData.input?.properties`; a template without a `visual_tag`
object throws at `nodeType.visual_tag.acronym` in the non-group branch. -/
def createNode (nodeTypes : List (String × List JVal)) (type : String)
    (id : JVal) (position : JVal) (additionalData0 : JVal) :
    Except Unit (Option JVal) :=
  let additionalData :=
    if additionalData0 = JVal.undef then JVal.obj [] else additionalData0
  match findTemplate nodeTypes type with
  | none => Except.ok none
  | some nodeType =>
      let inputProperties :=
        if jvTruthy (jvChain2 nodeType "input" "properties") then
          jvChain2 nodeType "input" "properties"
        else JVal.obj []
      let outputProperties :=
        if jvTruthy (jvChain2 nodeType "output" "properties") then
          jvChain2 nodeType "output" "properties"
        else JVal.obj []
      if jvIsNullish additionalData then Except.error ()
      else
        let pad1 :=
          if jvTruthy (jvChain2 additionalData "input" "properties") then
            jvSetKeyV additionalData "input"
              (JVal.obj (objSetKey (jvFields (jvGet additionalData "input"))
                "properties"
                (JVal.obj (objSpread (jvFields inputProperties)
                  (jvFields (jvChain2 additionalData "input" "properties"))))))
          else additionalData
        let pad2 :=
          if jvTruthy (jvChain2 additionalData "output" "properties") then
            jvSetKeyV pad1 "output"
              (JVal.obj (objSetKey (jvFields (jvGet pad1 "output"))
                "properties"
                (JVal.obj (objSpread (jvFields outputProperties)
                  (jvFields (jvChain2 additionalData "output" "properties"))))))
          else pad1
        if type = "group" then
          Except.ok (some (JVal.obj [
            ("id", if jvTruthy id then id else JVal.str uuidPlaceholder),
            ("type", JVal.str "group"),
            ("position", position),
            ("data", JVal.obj (objSpread [("title", JVal.str "Group")]
              (jvFields additionalData))),
            ("style", JVal.obj [("width", JVal.num 300),
              ("height", JVal.num 300)])]))
        else
          let vt := jvGet nodeType "visual_tag"
          if jvIsNullish vt then Except.error ()
          else
            Except.ok (some (JVal.obj [
              ("id", id),
              ("type", jvGet nodeType "name"),
              ("position", position),
              ("data", JVal.obj (objSpread [
                ("title", jvGet nodeType "name"),
                ("acronym", jvGet vt "acronym"),
                ("color", jvGet vt "color"),
                ("config", jvGet nodeType "config"),
                ("input", JVal.obj (objSpread [("properties", inputProperties)]
                  (jvFields (jvGet pad2 "input")))),
                ("output", JVal.obj (objSpread [("properties", outputProperties)]
                  (jvFields (jvGet pad2 "output"))))]
                (jvFields pad2)))]))

/-- Fully optional chain `v?.k1?.k2...` through a list of keys, as in
sourceNode?.config?.data?.output_schema?.[edge.sourceHandle]. -/
def jvChainGet (v : JVal) : List String → JVal
  | [] => v
  | k :: ks => if jvIsNullish v then JVal.undef else jvChainGet (jvGet v k) ks

/-- Short-circuiting `a || b`. -/
def jsOr (a b : JVal) : JVal :=
  if jvTruthy a then a else b

/-- Embedding of `nodes.find((node) => node.id === edge.source)` over the
raw node list: evaluating the predicate on a null/undefined element
throws. -/
def findNodeE (idStr : String) : List JVal → Except Unit (Option JVal)
  | [] => Except.ok none
  | n :: rest =>
      if jvIsNullish n then Except.error ()
      else if jvGet n "id" = JVal.str idStr then Except.ok (some n)
      else findNodeE idStr rest

/-- Per-node serialization step of saveWorkflow (src/unnamed/part_001
lines 18-34): an InputNode gets its config rebuilt with `input_schema`
synthesized from the workflow-input-variable names (reading
`node.data.config` throws when `node.data` is nullish); any other node
gets `config` and `title` copied through optional chains. -/
def serializeNodeForSave (wiv : List (String × JVal)) (node : JVal) :
    Except Unit JVal :=
  if jvGet node "type" = JVal.str "InputNode" then
    if jvIsNullish (jvGet node "data") then Except.error ()
    else
      Except.ok (JVal.obj (objSetKey (jvFields node) "config"
        (JVal.obj (objSetKey (jvFields (jvGet (jvGet node "data") "config"))
          "input_schema"
          (JVal.obj (wiv.map fun kv => (kv.1, JVal.str "str")))))))
  else
    Except.ok (JVal.obj (objSetKey
      (objSetKey (jvFields node) "config" (jvChain2 node "data" "config"))
      "title" (jvChain2 node "data" "title")))

/-- Projection of a serialized node to the persisted record
\x7bid, node_type, config, coordinates\x7d. -/
def projectNode (n : JVal) : JVal :=
  JVal.obj [("id", jvGet n "id"), ("node_type", jvGet n "type"),
    ("config", jvGet n "config"), ("coordinates", jvGet n "position")]

/-- Per-edge link record of saveWorkflow (src/unnamed/part_001 lines
45-57), including its type lookups through the
`sourceNode?.config?.data?.output_schema?.[...]` chains exactly as
written in the source. -/
def buildLink (nodes : List JVal) (e : Edge) : Except Unit JVal := do
  let sn ← findNodeE e.source nodes
  let tn ← findNodeE e.target nodes
  let snv := match sn with | none => JVal.undef | some n => n
  let tnv := match tn with | none => JVal.undef | some n => n
  Except.ok (JVal.obj [
    ("source_id", JVal.str e.source),
    ("source_output_key", JVal.str e.sourceHandle),
    ("source_output_type",
      jsOr (jvChainGet snv ["config", "data", "output_schema", e.sourceHandle])
        (JVal.str "str")),
    ("target_id", JVal.str e.target),
    ("target_input_key", JVal.str e.targetHandle),
    ("target_input_type",
      jsOr (jvChainGet tnv ["config", "data", "input_schema", e.targetHandle])
        (JVal.str "str"))])

/-- Effectful map over a list, stopping at the first thrown exception. -/
def exceptMap (f : α → Except Unit β) : List α → Except Unit (List β)
  | [] => Except.ok []
  | x :: xs => do
      let y ← f x
      let ys ← exceptMap f xs
      Except.ok (y :: ys)

/-- Embedding of the workflow-document construction of saveWorkflow
(src/unnamed/part_001 lines 16-60): null/undefined nodes are filtered out
of the serialized node list, but the link construction looks endpoints up
in the raw node list. -/
def saveWorkflowDoc (nodes : List JVal) (edges : List Edge)
    (wiv : List (String × JVal)) (workflowName : JVal) (testInputs : JVal) :
    Except Unit JVal := do
  let filtered := nodes.filter fun n =>
    decide (n ≠ JVal.null) && decide (n ≠ JVal.undef)
  let updatedNodes ← exceptMap (serializeNodeForSave wiv) filtered
  let links ← exceptMap (buildLink nodes) edges
  Except.ok (JVal.obj [("name", workflowName),
    ("definition", JVal.obj [
      ("nodes", JVal.arr (updatedNodes.map projectNode)),
      ("links", JVal.arr links),
      ("test_inputs", testInputs)])])

/-- Result of JavaScript float parsing: NaN, a signed infinity, or a
finite value.  Finite doubles are idealised as rationals; the claims
settled here concern error routing, not rounding. -/
inductive JNum where
  | nan : JNum
  | inf : Bool → JNum
  | val : Rat → JNum
deriving DecidableEq, Repr

/-- Numeric value of a list of decimal digits. -/
def digitsToNat (ds : List Char) : Nat :=
  ds.foldl (fun a c => a * 10 + (c.toNat - '0'.toNat)) 0

/-- Embedding of JavaScript `parseFloat`: skip leading whitespace, read an
optional sign, then the longest prefix shaped like `Infinity`, or decimal
digits with an optional fraction and an optional well-formed exponent;
anything else gives NaN.  An exponent marker without digits is not part of
the parsed prefix ("1e" parses as 1). -/
def jsParseFloat (s : String) : JNum :=
  let l := s.toList.dropWhile fun c => isWsChar c
  let signedTail : Bool × List Char :=
    match l with
    | '-' :: r => (true, r)
    | '+' :: r => (false, r)
    | _ => (false, l)
  let neg := signedTail.1
  let l1 := signedTail.2
  match stripLit "Infinity".toList l1 with
  | some _ => JNum.inf neg
  | none =>
      let intDigits := l1.takeWhile fun c => c.isDigit
      let rest1 := l1.drop intDigits.length
      let fracTail : List Char × List Char :=
        match rest1 with
        | '.' :: r => (r.takeWhile fun c => c.isDigit,
            r.drop (r.takeWhile fun c => c.isDigit).length)
        | _ => ([], rest1)
      let fracDigits := fracTail.1
      let rest2 := fracTail.2
      if intDigits.isEmpty && fracDigits.isEmpty then JNum.nan
      else
        let mant : Rat := (digitsToNat intDigits : Rat) +
          (digitsToNat fracDigits : Rat) / ((10 : Rat) ^ fracDigits.length)
        let m := if neg then -mant else mant
        let expVal : Int :=
          match rest2 with
          | e :: r =>
              if e = 'e' || e = 'E' then
                let esignedTail : Bool × List Char :=
                  match r with
                  | '-' :: rr => (true, rr)
                  | '+' :: rr => (false, rr)
                  | _ => (false, r)
                let eds := esignedTail.2.takeWhile fun c => c.isDigit
                if eds.isEmpty then 0
                else if esignedTail.1 then -(digitsToNat eds : Int)
                else (digitsToNat eds : Int)
              else 0
          | [] => 0
        if 0 ≤ expVal then JNum.val (m * (10 : Rat) ^ expVal.natAbs)
        else JNum.val (m / (10 : Rat) ^ expVal.natAbs)

/-- Embedding of the free numeric input's onChange handler
(NodeSidebar.jsx lines 290-300): `const newValue =
parseFloat(e.target.value); handleInputChange(key, isNaN(newValue) ? 0 :
newValue)` — the value passed to the config update. -/
def numberInputOnChange (s : String) : JNum :=
  match jsParseFloat s with
  | JNum.nan => JNum.val 0
  | v => v

/-- Primitive values of the heap model. -/
inductive HPrim where
  | str : String → HPrim
  | num : Int → HPrim
  | bool : Bool → HPrim
  | null : HPrim
  | undef : HPrim
deriving DecidableEq, Repr

/-- Heap-model values: a primitive, or a reference to a store address.
The heap model makes object identity explicit so that sharing between the
inputs and the result of `createNode` can be observed. -/
inductive HVal where
  | prim : HPrim → HVal
  | ref : Nat → HVal
deriving DecidableEq, Repr

/-- Heap objects: plain objects (ordered unique-key field lists) and
arrays. -/
inductive HObj where
  | obj : List (String × HVal) → HObj
  | arr : List HVal → HObj
deriving DecidableEq, Repr

/-- The store: addresses are list indices; allocation appends. -/
abbrev Store := List HObj

/-- Nullish test at heap level. -/
def hIsNullish : HVal → Bool
  | .prim .null => true
  | .prim .undef => true
  | _ => false

/-- Truthiness at heap level; every object reference is truthy. -/
def hTruthy : HVal → Bool
  | .prim (.str s) => s ≠ ""
  | .prim (.num n) => n ≠ 0
  | .prim (.bool b) => b
  | .prim .null => false
  | .prim .undef => false
  | .ref _ => true

/-- Own enumerable entries of a heap value: object fields, indexed array
elements, indexed string characters; nothing for other primitives.  Used
for spread and for-in enumeration. -/
def hOwnEntries (σ : Store) : HVal → List (String × HVal)
  | .ref a =>
      match σ.get? a with
      | some (.obj fields) => fields
      | some (.arr elems) => (elems.enum).map fun p => (toString p.1, p.2)
      | none => []
  | .prim (.str s) =>
      (s.toList.enum).map fun p => (toString p.1, HVal.prim (.str (String.mk [p.2])))
  | _ => []

/-- Member read `v.k` on a non-nullish heap value. -/
def hGetField (σ : Store) (v : HVal) (k : String) : HVal :=
  match v with
  | .ref a =>
      match σ.get? a with
      | some (.obj fields) => (olookup fields k).getD (.prim .undef)
      | _ => .prim .undef
  | _ => (.prim .undef : HVal)

/-- Optional tail chain `v.k1?.k2` with a plain (throwing) first access:
nullish base throws, nullish `v.k1` short-circuits. -/
def hGetOptE (σ : Store) (v : HVal) (k1 k2 : String) : Except Unit HVal :=
  if hIsNullish v then Except.error ()
  else
    let x := hGetField σ v k1
    if hIsNullish x then Except.ok (HVal.prim .undef)
    else Except.ok (hGetField σ x k2)

/-- Fully optional chain `v?.k1?.k2` at heap level. -/
def hChain2 (σ : Store) (v : HVal) (k1 k2 : String) : HVal :=
  if hIsNullish v then .prim .undef
  else
    let x := hGetField σ v k1
    if hIsNullish x then .prim .undef else hGetField σ x k2

/-- Property write `σ[a].k = v`; out-of-range or non-object targets leave
the store unchanged (the embedded code only writes to objects it just
cloned). -/
def hSetField (σ : Store) (a : Nat) (k : String) (v : HVal) : Store :=
  match σ.get? a with
  | some (.obj fields) => σ.set a (.obj (objSetKey fields k v))
  | _ => σ

/-- Property write through a value: writes on references, silently ignored
on primitives (sloppy mode). -/
def hSetFieldV (σ : Store) (v : HVal) (k : String) (w : HVal) : Store :=
  match v with
  | .ref a => hSetField σ a k w
  | .prim _ => σ

/-- Deep clone of a list of heap values, modelling lodash `cloneDeep`:
primitives are copied, every reachable object or array is re-allocated
with cloned contents.  `fuel` bounds the work (cloneDeep's cycle handling
is outside the model): with enough fuel for the acyclic inputs at hand the
clone is exact, and on exhaustion values degrade to `undefined` rather
than leaking references to the source — so for every fuel the clone
shares no reference with pre-existing objects. -/
def cloneVals : Nat → List HVal → Store → List HVal × Store
  | 0, vs, σ => (vs.map fun _ => HVal.prim .undef, σ)
  | _ + 1, [], σ => ([], σ)
  | fuel + 1, v :: vs, σ =>
      let cloned : HVal × Store :=
        match v with
        | .prim p => (.prim p, σ)
        | .ref a =>
            match σ.get? a with
            | some (.obj fields) =>
                let inner := cloneVals fuel (fields.map Prod.snd) σ
                (.ref inner.2.length,
                  inner.2 ++ [HObj.obj ((fields.map Prod.fst).zip inner.1)])
            | some (.arr elems) =>
                let inner := cloneVals fuel elems σ
                (.ref inner.2.length, inner.2 ++ [HObj.arr inner.1])
            | none => (.ref a, σ)
      let tail := cloneVals fuel vs cloned.2
      (cloned.1 :: tail.1, tail.2)

/-- Deep clone of one heap value. -/
def cloneDeepH (fuel : Nat) (v : HVal) (σ : Store) : HVal × Store :=
  match cloneVals (fuel + 1) [v] σ with
  | (v' :: _, σ') => (v', σ')
  | ([], σ') => (v, σ')

/-- Heap-level `templates.find((node) => node.name === type)`: evaluating
the predicate on a nullish element throws. -/
def findInArrH (σ : Store) (type : String) : List HVal → Except Unit (Option HVal)
  | [] => Except.ok none
  | e :: rest =>
      if hIsNullish e then Except.error ()
      else if hGetField σ e "name" = HVal.prim (.str type) then Except.ok (some e)
      else findInArrH σ type rest

/-- Walk of the catalog's categories in insertion order; a category value
without a `.find` method (anything but an array) throws. -/
def findTemplateHGo (σ : Store) (type : String) :
    List (String × HVal) → Except Unit (Option HVal)
  | [] => Except.ok none
  | (_, v) :: rest =>
      match v with
      | .ref a =>
          match σ.get? a with
          | some (.arr elems) =>
              match findInArrH σ type elems with
              | .error e => .error e
              | .ok (some t) => .ok (some t)
              | .ok none => findTemplateHGo σ type rest
          | _ => Except.error ()
      | .prim _ => Except.error ()

/-- Heap-level template search of createNode's catalog loop. -/
def findTemplateH (σ : Store) (catv : HVal) (type : String) :
    Except Unit (Option HVal) :=
  findTemplateHGo σ type (hOwnEntries σ catv)

/-- One override-merge step of createNode at heap level: when the raw
override carries a truthy `properties`, allocate the merged properties
literal (spreading the raw override entries — object values stay shared),
allocate the rebuilt `input`/`output` literal around it, and assign it
onto the cloned additionalData. -/
def mergePropsH (σ : Store) (pad baseProps ovProps : HVal) (key : String) :
    Store :=
  if hTruthy ovProps then
    let merged := objSpread (hOwnEntries σ baseProps) (hOwnEntries σ ovProps)
    let σa := σ ++ [HObj.obj merged]
    let newFields := objSetKey
      (hOwnEntries σa (hGetField σa pad key)) "properties"
      (HVal.ref σ.length)
    let σb := σa ++ [HObj.obj newFields]
    hSetFieldV σb pad key (HVal.ref σa.length)
  else σ

/-- Evaluation of `x || \x7b\x7d` over a (value, store) pair: a falsy
value is replaced by a freshly allocated empty object. -/
def allocIfFalsy (p : HVal × Store) : HVal × Store :=
  if hTruthy p.1 then p else (HVal.ref p.2.length, p.2 ++ [HObj.obj []])

/-- Group branch of createNode at heap level: allocates the `data` literal
(spreading the raw `additionalData`, so its object-valued entries stay
shared), the `style` literal and the node literal. -/
def buildGroupH (σ : Store) (id position additionalData : HVal) :
    Except Unit (Option HVal) × Store :=
  let dataFields := objSpread [("title", HVal.prim (.str "Group"))]
    (hOwnEntries σ additionalData)
  let σ7 := σ ++ [HObj.obj dataFields]
  let σ8 := σ7 ++ [HObj.obj [("width", HVal.prim (.num 300)),
    ("height", HVal.prim (.num 300))]]
  let nodeFields := [
    ("id", if hTruthy id then id else HVal.prim (.str uuidPlaceholder)),
    ("type", HVal.prim (.str "group")),
    ("position", position),
    ("data", HVal.ref σ.length),
    ("style", HVal.ref σ7.length)]
  (Except.ok (some (HVal.ref σ8.length)), σ8 ++ [HObj.obj nodeFields])

/-- Non-group tail of createNode at heap level: clones the template
config, allocates the `input`/`output` literals (spreading the merged
additionalData blocks), the `data` literal and the node literal. -/
def buildRegularH (fuel : Nat) (σ : Store)
    (nodeType vt id position inputProperties outputProperties pad : HVal) :
    Except Unit (Option HVal) × Store :=
  let cfgClone := cloneDeepH fuel (hGetField σ nodeType "config") σ
  let σ7 := cfgClone.2
  let inFields := objSpread [("properties", inputProperties)]
    (hOwnEntries σ7 (hGetField σ7 pad "input"))
  let σ8 := σ7 ++ [HObj.obj inFields]
  let outFields := objSpread [("properties", outputProperties)]
    (hOwnEntries σ8 (hGetField σ8 pad "output"))
  let σ9 := σ8 ++ [HObj.obj outFields]
  let dataFields := objSpread [
    ("title", hGetField σ9 nodeType "name"),
    ("acronym", hGetField σ9 vt "acronym"),
    ("color", hGetField σ9 vt "color"),
    ("config", cfgClone.1),
    ("input", HVal.ref σ7.length),
    ("output", HVal.ref σ8.length)]
    (hOwnEntries σ9 pad)
  let σ10 := σ9 ++ [HObj.obj dataFields]
  let nodeFields := [
    ("id", id),
    ("type", hGetField σ10 nodeType "name"),
    ("position", position),
    ("data", HVal.ref σ9.length)]
  (Except.ok (some (HVal.ref σ10.length)), σ10 ++ [HObj.obj nodeFields])

/-- Branch dispatch of createNode after the merge steps: the `group`
special case, the `visual_tag` read (throwing on a nullish one) and the
regular-node construction. -/
def stageBuildH (fuel : Nat) (type : String)
    (nodeType id position additionalData inputProperties outputProperties
      pad : HVal) (σ6 : Store) : Except Unit (Option HVal) × Store :=
  if type = "group" then
    buildGroupH σ6 id position additionalData
  else
    let vt := hGetField σ6 nodeType "visual_tag"
    if hIsNullish vt then (Except.error (), σ6)
    else
      buildRegularH fuel σ6 nodeType vt id position
        inputProperties outputProperties pad

/-- Output-side override merge of createNode (`additionalData.output?.
properties` guard, then the merge assignment), followed by the build
dispatch. -/
def stageOutputH (fuel : Nat) (type : String)
    (nodeType id position additionalData inputProperties outputProperties
      pad : HVal) (σ5 : Store) : Except Unit (Option HVal) × Store :=
  match hGetOptE σ5 additionalData "output" "properties" with
  | .error _ => (Except.error (), σ5)
  | .ok opOv =>
      stageBuildH fuel type nodeType id position additionalData
        inputProperties outputProperties pad
        (mergePropsH σ5 pad outputProperties opOv "output")

/-- Input-side override merge of createNode (`additionalData.input?.
properties` guard, then the merge assignment), followed by the output
side. -/
def stageInputH (fuel : Nat) (type : String)
    (nodeType id position additionalData inputProperties outputProperties
      pad : HVal) (σ4 : Store) : Except Unit (Option HVal) × Store :=
  match hGetOptE σ4 additionalData "input" "properties" with
  | .error _ => (Except.error (), σ4)
  | .ok ipOv =>
      stageOutputH fuel type nodeType id position additionalData
        inputProperties outputProperties pad
        (mergePropsH σ4 pad inputProperties ipOv "input")

/-- Heap-level embedding of the body of createNode (src/unnamed/part_000),
making allocation and sharing explicit.  Object literals allocate;
`cloneDeep` re-allocates deeply; spreads copy field lists shallowly, so
object-valued entries keep their references — in particular the group
branch spreads the raw `additionalData` into the new node's `data`, and
the merged `properties` literals spread the raw
`additionalData.input.properties` / `...output...` entries. -/
def createNodeHCore (fuel : Nat) (nodeTypes : HVal) (type : String) (id : HVal)
    (position : HVal) (additionalData : HVal) (σ1 : Store) :
    Except Unit (Option HVal) × Store :=
  match findTemplateH σ1 nodeTypes type with
  | .error _ => (Except.error (), σ1)
  | .ok none => (Except.ok none, σ1)
  | .ok (some nodeType) =>
      let ipPick := allocIfFalsy
        (cloneDeepH fuel (hChain2 σ1 nodeType "input" "properties") σ1)
      let opPick := allocIfFalsy
        (cloneDeepH fuel (hChain2 ipPick.2 nodeType "output" "properties")
          ipPick.2)
      let padClone := cloneDeepH fuel additionalData opPick.2
      stageInputH fuel type nodeType id position additionalData
        ipPick.1 opPick.1 padClone.1 padClone.2

/-- Entry point of the heap-level createNode: applies the
`additionalData = \x7b\x7d` parameter default (which allocates a fresh
empty object when the argument is `undefined`) and runs the body. -/
def createNodeH (fuel : Nat) (nodeTypes : HVal) (type : String) (id : HVal)
    (position : HVal) (additionalData0 : HVal) (σ0 : Store) :
    Except Unit (Option HVal) × Store :=
  if additionalData0 = HVal.prim .undef then
    createNodeHCore fuel nodeTypes type id position (HVal.ref σ0.length)
      (σ0 ++ [HObj.obj []])
  else
    createNodeHCore fuel nodeTypes type id position additionalData0 σ0

/-- Store extension: every address allocated before still holds the same
object — the formal content of "the call did not mutate any pre-existing
object", in particular none of the objects of the catalog or the
overrides argument. -/
def StoreExtends (σ σ' : Store) : Prop :=
  σ.length ≤ σ'.length ∧ ∀ i, i < σ.length → σ'.get? i = σ.get? i

theorem storeExtends_refl (σ : Store) : StoreExtends σ σ :=
  ⟨le_refl _, fun _ _ => rfl⟩

theorem storeExtends_trans {σ1 σ2 σ3 : Store}
    (h1 : StoreExtends σ1 σ2) (h2 : StoreExtends σ2 σ3) : StoreExtends σ1 σ3 :=
  ⟨le_trans h1.1 h2.1,
    fun i hi => (h2.2 i (lt_of_lt_of_le hi h1.1)).trans (h1.2 i hi)⟩

theorem storeExtends_append (σ τ : Store) : StoreExtends σ (σ ++ τ) := by
  refine ⟨by simp, fun i hi => ?_⟩
  exact List.get?_append hi

theorem storeExtends_set {σ σ' : Store} {a : Nat} {x : HObj}
    (h : StoreExtends σ σ') (ha : σ.length ≤ a) :
    StoreExtends σ (σ'.set a x) := by
  refine ⟨by simpa using h.1, fun i hi => ?_⟩
  rw [List.get?_set_ne _ _ (by omega), h.2 i hi]

theorem storeExtends_hSetField {σ σ' : Store} {a : Nat} {k : String} {v : HVal}
    (h : StoreExtends σ σ') (ha : σ.length ≤ a) :
    StoreExtends σ (hSetField σ' a k v) := by
  unfold hSetField
  split
  · exact storeExtends_set h ha
  · exact h

/-- All references inside a value point at or above address `n` — i.e. the
value cannot reach any object allocated before `n`'s region directly. -/
def refsGE (n : Nat) (v : HVal) : Prop :=
  ∀ a, v = HVal.ref a → n ≤ a

theorem refsGE_mono {m n : Nat} {v : HVal} (h : m ≤ n) (hv : refsGE n v) :
    refsGE m v :=
  fun a ha => le_trans h (hv a ha)

theorem refsGE_prim {n : Nat} {p : HPrim} : refsGE n (HVal.prim p) :=
  fun a ha => by cases ha

theorem storeExtends_hSetFieldV {σ σ' : Store} {pad v : HVal} {k : String}
    (h : StoreExtends σ σ') (hpad : refsGE σ.length pad) :
    StoreExtends σ (hSetFieldV σ' pad k v) := by
  unfold hSetFieldV
  split
  · next a => exact storeExtends_hSetField h (hpad a rfl)
  · exact h

theorem storeExtends_mergePropsH {σ σ' : Store} {pad b o : HVal} {k : String}
    (h : StoreExtends σ σ') (hpad : refsGE σ.length pad) :
    StoreExtends σ (mergePropsH σ' pad b o k) := by
  unfold mergePropsH
  split
  · exact storeExtends_hSetFieldV
      (storeExtends_trans h (storeExtends_trans
        (storeExtends_append _ _) (storeExtends_append _ _))) hpad
  · exact h

theorem cloneVals_spec :
    ∀ (fuel : Nat) (vs : List HVal) (σ : Store),
      StoreExtends σ (cloneVals fuel vs σ).2 ∧
        ∀ v ∈ (cloneVals fuel vs σ).1, refsGE σ.length v := by
  intro fuel
  induction fuel with
  | zero =>
      intro vs σ
      refine ⟨storeExtends_refl σ, fun v hv => ?_⟩
      simp only [cloneVals, List.mem_map] at hv
      obtain ⟨_, _, rfl⟩ := hv
      exact refsGE_prim
  | succ fuel ih =>
      intro vs σ
      cases vs with
      | nil =>
          exact ⟨storeExtends_refl σ, by simp [cloneVals]⟩
      | cons v rest =>
          cases v with
          | prim p =>
              simp only [cloneVals]
              have htail := ih rest σ
              refine ⟨htail.1, fun w hw => ?_⟩
              simp only [List.mem_cons] at hw
              rcases hw with hw | hw
              · exact hw ▸ refsGE_prim
              · exact htail.2 w hw
          | ref a =>
              cases e : σ.get? a with
              | none =>
                  simp only [cloneVals, e]
                  have ha : σ.length ≤ a := List.get?_eq_none.mp e
                  have htail := ih rest σ
                  refine ⟨htail.1, fun w hw => ?_⟩
                  simp only [List.mem_cons] at hw
                  rcases hw with hw | hw
                  · subst hw
                    intro b hb
                    cases hb
                    exact ha
                  · exact htail.2 w hw
              | some ho =>
                  cases ho with
                  | obj fields =>
                      simp only [cloneVals, e]
                      have hinner := ih (fields.map Prod.snd) σ
                      have hext1 : StoreExtends σ
                          ((cloneVals fuel (fields.map Prod.snd) σ).2 ++
                            [HObj.obj ((fields.map Prod.fst).zip
                              (cloneVals fuel (fields.map Prod.snd) σ).1)]) :=
                        storeExtends_trans hinner.1 (storeExtends_append _ _)
                      have htail := ih rest
                        ((cloneVals fuel (fields.map Prod.snd) σ).2 ++
                          [HObj.obj ((fields.map Prod.fst).zip
                            (cloneVals fuel (fields.map Prod.snd) σ).1)])
                      refine ⟨storeExtends_trans hext1 htail.1, fun w hw => ?_⟩
                      simp only [List.mem_cons] at hw
                      rcases hw with hw | hw
                      · subst hw
                        intro b hb
                        cases hb
                        exact hinner.1.1
                      · exact refsGE_mono hext1.1 (htail.2 w hw)
                  | arr elems =>
                      simp only [cloneVals, e]
                      have hinner := ih elems σ
                      have hext1 : StoreExtends σ
                          ((cloneVals fuel elems σ).2 ++
                            [HObj.arr (cloneVals fuel elems σ).1]) :=
                        storeExtends_trans hinner.1 (storeExtends_append _ _)
                      have htail := ih rest
                        ((cloneVals fuel elems σ).2 ++
                          [HObj.arr (cloneVals fuel elems σ).1])
                      refine ⟨storeExtends_trans hext1 htail.1, fun w hw => ?_⟩
                      simp only [List.mem_cons] at hw
                      rcases hw with hw | hw
                      · subst hw
                        intro b hb
                        cases hb
                        exact hinner.1.1
                      · exact refsGE_mono hext1.1 (htail.2 w hw)

theorem cloneVals_length :
    ∀ (fuel : Nat) (vs : List HVal) (σ : Store),
      (cloneVals fuel vs σ).1.length = vs.length := by
  intro fuel
  induction fuel with
  | zero => intro vs σ; simp [cloneVals]
  | succ fuel ih =>
      intro vs σ
      cases vs with
      | nil => simp [cloneVals]
      | cons v rest =>
          simp only [cloneVals, List.length_cons]
          rw [ih]

theorem cloneDeepH_spec (fuel : Nat) (v : HVal) (σ : Store) :
    StoreExtends σ (cloneDeepH fuel v σ).2 ∧
      refsGE σ.length (cloneDeepH fuel v σ).1 := by
  have h := cloneVals_spec (fuel + 1) [v] σ
  have hl := cloneVals_length (fuel + 1) [v] σ
  unfold cloneDeepH
  cases e : cloneVals (fuel + 1) [v] σ with
  | mk vals σ' =>
      rw [e] at h hl
      cases vals with
      | nil => simp at hl
      | cons v0 vrest =>
          exact ⟨h.1, h.2 v0 (List.mem_cons_self _ _)⟩

theorem allocIfFalsy_extends {σ0 : Store} {p : HVal × Store}
    (h : StoreExtends σ0 p.2) : StoreExtends σ0 (allocIfFalsy p).2 := by
  unfold allocIfFalsy
  split
  · exact h
  · exact storeExtends_trans h (storeExtends_append _ _)

theorem buildGroupH_extends {σ0 σ : Store} {id position ad : HVal}
    (h : StoreExtends σ0 σ) :
    StoreExtends σ0 (buildGroupH σ id position ad).2 := by
  unfold buildGroupH
  exact storeExtends_trans h (storeExtends_trans (storeExtends_append _ _)
    (storeExtends_trans (storeExtends_append _ _) (storeExtends_append _ _)))

theorem buildRegularH_extends {σ0 σ : Store} {fuel : Nat}
    {nodeType vt id position ip op pad : HVal} (h : StoreExtends σ0 σ) :
    StoreExtends σ0
      (buildRegularH fuel σ nodeType vt id position ip op pad).2 := by
  unfold buildRegularH
  exact storeExtends_trans h (storeExtends_trans
    (cloneDeepH_spec fuel (hGetField σ nodeType "config") σ).1
    (storeExtends_trans (storeExtends_append _ _)
      (storeExtends_trans (storeExtends_append _ _)
        (storeExtends_trans (storeExtends_append _ _)
          (storeExtends_append _ _)))))

theorem stageBuildH_extends {σ0 σ6 : Store} {fuel : Nat} {type : String}
    {nodeType id position ad ip op pad : HVal} (h : StoreExtends σ0 σ6) :
    StoreExtends σ0
      (stageBuildH fuel type nodeType id position ad ip op pad σ6).2 := by
  unfold stageBuildH
  split
  · exact buildGroupH_extends h
  · show StoreExtends σ0
      (if hIsNullish (hGetField σ6 nodeType "visual_tag") then
        (Except.error (), σ6)
      else
        buildRegularH fuel σ6 nodeType (hGetField σ6 nodeType "visual_tag")
          id position ip op pad).2
    split
    · exact h
    · exact buildRegularH_extends h

theorem stageOutputH_extends {σ0 σ5 : Store} {fuel : Nat} {type : String}
    {nodeType id position ad ip op pad : HVal} (h : StoreExtends σ0 σ5)
    (hpad : refsGE σ0.length pad) :
    StoreExtends σ0
      (stageOutputH fuel type nodeType id position ad ip op pad σ5).2 := by
  unfold stageOutputH
  split
  · exact h
  · exact stageBuildH_extends (storeExtends_mergePropsH h hpad)

theorem stageInputH_extends {σ0 σ4 : Store} {fuel : Nat} {type : String}
    {nodeType id position ad ip op pad : HVal} (h : StoreExtends σ0 σ4)
    (hpad : refsGE σ0.length pad) :
    StoreExtends σ0
      (stageInputH fuel type nodeType id position ad ip op pad σ4).2 := by
  unfold stageInputH
  split
  · exact h
  · exact stageOutputH_extends (storeExtends_mergePropsH h hpad) hpad

theorem createNodeHCore_extends (fuel : Nat) (nodeTypes : HVal) (type : String)
    (id position additionalData : HVal) {σ0 σ1 : Store}
    (h1 : StoreExtends σ0 σ1) :
    StoreExtends σ0
      (createNodeHCore fuel nodeTypes type id position additionalData σ1).2 := by
  unfold createNodeHCore
  split
  · exact h1
  · exact h1
  · next nodeType heq =>
      have h2 : StoreExtends σ0
          (allocIfFalsy (cloneDeepH fuel
            (hChain2 σ1 nodeType "input" "properties") σ1)).2 :=
        allocIfFalsy_extends (storeExtends_trans h1 (cloneDeepH_spec _ _ _).1)
      have h3 : StoreExtends σ0
          (allocIfFalsy (cloneDeepH fuel
            (hChain2 (allocIfFalsy (cloneDeepH fuel
              (hChain2 σ1 nodeType "input" "properties") σ1)).2
              nodeType "output" "properties")
            (allocIfFalsy (cloneDeepH fuel
              (hChain2 σ1 nodeType "input" "properties") σ1)).2)).2 :=
        allocIfFalsy_extends (storeExtends_trans h2 (cloneDeepH_spec _ _ _).1)
      refine stageInputH_extends
        (storeExtends_trans h3 (cloneDeepH_spec _ _ _).1) ?_
      exact refsGE_mono h3.1 (cloneDeepH_spec _ _ _).2

/-- Frame property of the heap-level createNode: the call only allocates;
every pre-existing store address — in particular every object of the
catalog and of the overrides argument — is left exactly as it was. -/
theorem createNodeH_extends (fuel : Nat) (nodeTypes : HVal) (type : String)
    (id position additionalData0 : HVal) (σ0 : Store) :
    StoreExtends σ0
      (createNodeH fuel nodeTypes type id position additionalData0 σ0).2 := by
  unfold createNodeH
  split
  · exact createNodeHCore_extends _ _ _ _ _ _ (storeExtends_append _ _)
  · exact createNodeHCore_extends _ _ _ _ _ _ (storeExtends_refl _)

theorem olookup_eq_none_of_not_mem {α : Type} (fs : List (String × α))
    (k : String) (h : k ∉ fs.map Prod.fst) : olookup fs k = none := by
  induction fs with
  | nil => rfl
  | cons hd tl ih =>
      obtain ⟨k1, v1⟩ := hd
      simp only [List.map_cons, List.mem_cons] at h
      push_neg at h
      simp only [olookup, if_neg (Ne.symm h.1)]
      exact ih h.2

theorem any_key_of_olookup_some {α : Type} {fs : List (String × α)}
    {k : String} {v : α} (h : olookup fs k = some v) :
    (fs.any fun kv => kv.1 = k) = true := by
  induction fs with
  | nil => simp [olookup] at h
  | cons hd tl ih =>
      obtain ⟨k1, v1⟩ := hd
      simp only [olookup] at h
      by_cases hk : k1 = k
      · simp [hk]
      · rw [if_neg hk] at h
        simp only [List.any_cons, Bool.or_eq_true, decide_eq_true_eq]
        exact Or.inr (ih h)

theorem olookup_mapReplace {α : Type} {fs : List (String × α)} {k : String}
    (v : α) (hany : (fs.any fun kv => kv.1 = k) = true) :
    olookup (fs.map fun kv => if kv.1 = k then (k, v) else kv) k = some v := by
  induction fs with
  | nil => simp at hany
  | cons hd tl ih =>
      obtain ⟨k1, v1⟩ := hd
      simp only [List.map_cons]
      by_cases h : k1 = k
      · rw [if_pos h]
        simp [olookup]
      · rw [if_neg h]
        simp only [olookup, if_neg h]
        apply ih
        simp only [List.any_cons, Bool.or_eq_true, decide_eq_true_eq] at hany
        tauto

theorem olookup_objSetKey_self {α : Type} (fs : List (String × α)) (k : String)
    (v : α) : olookup (objSetKey fs k v) k = some v := by
  unfold objSetKey
  split
  · next hany => exact olookup_mapReplace v hany
  · next hany =>
      induction fs with
      | nil => simp [olookup]
      | cons hd tl ih =>
          obtain ⟨k1, v1⟩ := hd
          simp only [List.any_cons, Bool.or_eq_true, decide_eq_true_eq] at hany
          push_neg at hany
          simp only [List.cons_append, olookup, if_neg hany.1]
          exact ih (by simpa using hany.2)

theorem olookup_mapReplace_ne {α : Type} (fs : List (String × α))
    (k k' : String) (v : α) (h : k' ≠ k) :
    olookup (fs.map fun kv => if kv.1 = k then (k, v) else kv) k' =
      olookup fs k' := by
  induction fs with
  | nil => rfl
  | cons hd tl ih =>
      obtain ⟨k1, v1⟩ := hd
      simp only [List.map_cons]
      by_cases hk : k1 = k
      · rw [if_pos hk]
        simp only [olookup]
        rw [if_neg (Ne.symm h), if_neg (fun hh : k1 = k' => h (hh.symm.trans hk))]
        exact ih
      · rw [if_neg hk]
        simp only [olookup]
        by_cases hk' : k1 = k'
        · simp [hk']
        · rw [if_neg hk', if_neg hk']
          exact ih

theorem olookup_append_single_ne {α : Type} (fs : List (String × α))
    (k k' : String) (v : α) (h : k' ≠ k) :
    olookup (fs ++ [(k, v)]) k' = olookup fs k' := by
  induction fs with
  | nil => simp [olookup, if_neg (fun hh : k = k' => h hh.symm)]
  | cons hd tl ih =>
      obtain ⟨k1, v1⟩ := hd
      simp only [List.cons_append, olookup]
      by_cases hk' : k1 = k'
      · simp [hk']
      · rw [if_neg hk', if_neg hk']
        exact ih

theorem olookup_objSetKey_ne {α : Type} (fs : List (String × α))
    (k k' : String) (v : α) (h : k' ≠ k) :
    olookup (objSetKey fs k v) k' = olookup fs k' := by
  unfold objSetKey
  split
  · exact olookup_mapReplace_ne fs k k' v h
  · exact olookup_append_single_ne fs k k' v h

theorem olookup_objDelete_self {α : Type} (fs : List (String × α))
    (k : String) : olookup (objDelete fs k) k = none := by
  induction fs with
  | nil => rfl
  | cons hd tl ih =>
      obtain ⟨k1, v1⟩ := hd
      unfold objDelete at ih ⊢
      by_cases hk : k1 = k
      · rw [List.filter_cons_of_neg (by simpa using hk)]
        exact ih
      · rw [List.filter_cons_of_pos (by simpa using hk)]
        simp only [olookup, if_neg hk]
        exact ih

theorem olookup_objDelete_ne {α : Type} (fs : List (String × α))
    (k k' : String) (h : k' ≠ k) :
    olookup (objDelete fs k) k' = olookup fs k' := by
  induction fs with
  | nil => rfl
  | cons hd tl ih =>
      obtain ⟨k1, v1⟩ := hd
      unfold objDelete at ih ⊢
      by_cases hk : k1 = k
      · rw [List.filter_cons_of_neg (by simpa using hk)]
        simp only [olookup, if_neg (fun hh : k1 = k' => h (hh ▸ hk ▸ rfl))]
        exact ih
      · rw [List.filter_cons_of_pos (by simpa using hk)]
        simp only [olookup]
        by_cases hk' : k1 = k'
        · simp [hk']
        · rw [if_neg hk', if_neg hk']
          exact ih

theorem keys_objSetKey_of_any {α : Type} (fs : List (String × α))
    (k : String) (v : α) (hany : (fs.any fun kv => kv.1 = k) = true) :
    (objSetKey fs k v).map Prod.fst = fs.map Prod.fst := by
  unfold objSetKey
  rw [if_pos hany, List.map_map]
  apply List.map_congr_left
  intro kv _
  by_cases h : kv.1 = k
  · rw [Function.comp_apply, if_pos h]
    exact h.symm
  · rw [Function.comp_apply, if_neg h]

theorem length_objSetKey_of_any {α : Type} (fs : List (String × α))
    (k : String) (v : α) (hany : (fs.any fun kv => kv.1 = k) = true) :
    (objSetKey fs k v).length = fs.length := by
  unfold objSetKey
  rw [if_pos hany, List.length_map]

theorem not_mem_keys_of_any_eq_false {α : Type} {fs : List (String × α)}
    {k : String} (h : (fs.any fun kv => kv.1 = k) = false) :
    k ∉ fs.map Prod.fst := by
  intro hmem
  obtain ⟨kv, hkv, hfst⟩ := List.mem_map.mp hmem
  have : (fs.any fun kv => kv.1 = k) = true :=
    List.any_eq_true.mpr ⟨kv, hkv, by simp [hfst]⟩
  rw [h] at this
  cases this

theorem objNodupKeys_objSetKey {α : Type} {fs : List (String × α)}
    {k : String} {v : α} (h : objNodupKeys fs) :
    objNodupKeys (objSetKey fs k v) := by
  by_cases hany : (fs.any fun kv => kv.1 = k) = true
  · unfold objNodupKeys
    rw [keys_objSetKey_of_any fs k v hany]
    exact h
  · unfold objNodupKeys objSetKey
    rw [if_neg hany, List.map_append]
    simp only [List.map_cons, List.map_nil]
    rw [List.nodup_append]
    refine ⟨h, List.nodup_singleton k, ?_⟩
    intro a ha hb
    simp only [List.mem_singleton] at hb
    subst hb
    exact not_mem_keys_of_any_eq_false (Bool.eq_false_iff.mpr hany) ha

theorem objDelete_eq_self_of_not_mem {α : Type} (fs : List (String × α))
    (k : String) (h : k ∉ fs.map Prod.fst) : objDelete fs k = fs := by
  unfold objDelete
  apply List.filter_eq_self.mpr
  intro kv hkv
  simp only [decide_eq_true_eq]
  intro hk
  exact h (List.mem_map.mpr ⟨kv, hkv, hk⟩)

theorem length_objDelete_of_nodup {α : Type} (fs : List (String × α))
    (k : String) (hnd : objNodupKeys fs) (hk : olookup fs k ≠ none) :
    (objDelete fs k).length + 1 = fs.length := by
  induction fs with
  | nil => exact absurd rfl hk
  | cons hd tl ih =>
      obtain ⟨k1, v1⟩ := hd
      unfold objNodupKeys at hnd
      simp only [List.map_cons, List.nodup_cons] at hnd
      by_cases h1 : k1 = k
      · unfold objDelete
        rw [List.filter_cons_of_neg (by simpa using h1)]
        have : objDelete tl k = tl :=
          objDelete_eq_self_of_not_mem tl k (h1 ▸ hnd.1)
        unfold objDelete at this
        rw [this]
        simp
      · unfold objDelete
        rw [List.filter_cons_of_pos (by simpa using h1)]
        simp only [List.length_cons]
        have hk' : olookup tl k ≠ none := by
          simpa [olookup, if_neg h1] using hk
        have := ih hnd.2 hk'
        unfold objDelete at this
        omega

theorem olookup_objSpread {α : Type} (fs1 fs2 : List (String × α)) (k : String)
    (h2 : objNodupKeys fs2) :
    olookup (objSpread fs1 fs2) k = (olookup fs2 k).or (olookup fs1 k) := by
  induction fs2 generalizing fs1 with
  | nil => simp [objSpread, olookup, Option.or]
  | cons hd tl ih =>
      obtain ⟨k0, v0⟩ := hd
      unfold objNodupKeys at h2
      simp only [List.map_cons, List.nodup_cons] at h2
      have hstep : objSpread fs1 ((k0, v0) :: tl) =
          objSpread (objSetKey fs1 k0 v0) tl := rfl
      rw [hstep, ih (objSetKey fs1 k0 v0) h2.2]
      by_cases hk : k = k0
      · subst hk
        rw [olookup_eq_none_of_not_mem tl k h2.1, olookup_objSetKey_self]
        simp [olookup, Option.or]
      · rw [olookup_objSetKey_ne fs1 k0 k v0 hk]
        simp only [olookup, if_neg (fun hh : k0 = k => hk hh.symm)]

theorem normWsAux_no_ws :
    ∀ (l : List Char) (b : Bool), ∀ c ∈ normWsAux l b, isWsChar c = false := by
  intro l
  induction l with
  | nil => intro b c hc; simp [normWsAux] at hc
  | cons d ds ih =>
      intro b c hc
      unfold normWsAux at hc
      by_cases hd : isWsChar d
      · rw [if_pos hd] at hc
        cases b with
        | true => exact ih true c hc
        | false =>
            rcases List.mem_cons.mp hc with hc | hc
            · subst hc; decide
            · exact ih true c hc
      · rw [if_neg hd] at hc
        rcases List.mem_cons.mp hc with hc | hc
        · subst hc; simpa using hd
        · exact ih false c hc

theorem dropWhile_of_no_ws {l : List Char}
    (h : ∀ c ∈ l, isWsChar c = false) :
    (l.dropWhile fun c => isWsChar c) = l := by
  cases l with
  | nil => rfl
  | cons d ds =>
      rw [List.dropWhile_cons_of_neg
        (by simp [h d (List.mem_cons_self d ds)])]

theorem jsTrim_jsNormalizeWs (s : String) :
    jsTrim (jsNormalizeWs s) = jsNormalizeWs s := by
  unfold jsTrim jsNormalizeWs
  have h : ∀ c ∈ normWsAux s.toList false, isWsChar c = false :=
    normWsAux_no_ws _ false
  rw [show (String.mk (normWsAux s.toList false)).toList =
    normWsAux s.toList false from rfl]
  rw [dropWhile_of_no_ws h,
    dropWhile_of_no_ws (fun c hc => h c (List.mem_reverse.mp hc)),
    List.reverse_reverse]

/-- C10: the free numeric input's change handler stores 0 for every string
whose parse is NaN, stores the parsed numeric value for every string that
does parse, and never stores NaN. -/
theorem numeric_input_coercion (s : String) :
    (jsParseFloat s = JNum.nan → numberInputOnChange s = JNum.val 0) ∧
    (jsParseFloat s ≠ JNum.nan → numberInputOnChange s = jsParseFloat s) ∧
    numberInputOnChange s ≠ JNum.nan := by
  unfold numberInputOnChange
  cases h : jsParseFloat s with
  | nan =>
      refine ⟨fun _ => rfl, fun hn => absurd rfl hn, ?_⟩
      simp
  | inf b =>
      refine ⟨fun hn => ?_, fun _ => rfl, ?_⟩
      · cases hn
      · simp
  | val q =>
      refine ⟨fun hn => ?_, fun _ => rfl, ?_⟩
      · cases hn
      · simp

theorem numeric_input_coercion_witness :
    numberInputOnChange "not a number" = JNum.val 0 ∧
    numberInputOnChange "42" = jsParseFloat "42" := by
  refine ⟨(numeric_input_coercion "not a number").1 rfl,
    (numeric_input_coercion "42").2.1 fun hh => ?_⟩
  have h3 : (match jsParseFloat "42" with
    | JNum.nan => true
    | _ => false) = false := rfl
  rw [hh] at h3
  cases h3

/-- Node shaped as the store keeps it (shape produced by createNode):
schemas live under data.config, not under a top-level config. -/
def c8SourceNode : JVal :=
  JVal.obj [("id", JVal.str "n1"), ("type", JVal.str "T"),
    ("position", JVal.obj []),
    ("data", JVal.obj [("config",
      JVal.obj [("output_schema", JVal.obj [("out1", JVal.str "int")])])])]

def c8TargetNode : JVal :=
  JVal.obj [("id", JVal.str "n2"), ("type", JVal.str "U"),
    ("position", JVal.obj []),
    ("data", JVal.obj [("config",
      JVal.obj [("input_schema", JVal.obj [("in1", JVal.str "int")])])])]

/-- C8 (code bug): the link serializer reads the transposed path
`sourceNode?.config?.data?.output_schema` while store nodes carry
`data.config.output_schema`, so even for an edge whose source handle the
live output schema maps to "int" the serialized `source_output_type` (and
symmetrically `target_input_type`) is the fallback "str". -/
theorem link_type_always_str :
    jvGet (jvGet (jvGet c8SourceNode "data") "config") "output_schema" =
      JVal.obj [("out1", JVal.str "int")] ∧
    jvGet (jvGet (jvGet c8TargetNode "data") "config") "input_schema" =
      JVal.obj [("in1", JVal.str "int")] ∧
    buildLink [c8SourceNode, c8TargetNode] ⟨"n1", "out1", "n2", "in1"⟩ =
      Except.ok (JVal.obj [
        ("source_id", JVal.str "n1"),
        ("source_output_key", JVal.str "out1"),
        ("source_output_type", JVal.str "str"),
        ("target_id", JVal.str "n2"),
        ("target_input_key", JVal.str "in1"),
        ("target_input_type", JVal.str "str")]) :=
  ⟨rfl, rfl, rfl⟩

/-- C6 fails as stated: quantifying over every catalog is wrong, because a
catalog with no template named "group" makes createNode return null before
the group branch is reached. -/
theorem createNode_group_counterexample :
    createNode [] "group" (JVal.str "n1") (JVal.obj [])
        (JVal.obj [("title", JVal.str "X")]) = Except.ok none ∧
    (Except.ok none : Except Unit (Option JVal)) ≠
      Except.ok (some (JVal.obj [
        ("id", JVal.str "n1"),
        ("type", JVal.str "group"),
        ("position", JVal.obj []),
        ("data", JVal.obj [("title", JVal.str "X")]),
        ("style", JVal.obj [("width", JVal.num 300),
          ("height", JVal.num 300)])])) := by
  refine ⟨rfl, fun h => ?_⟩
  injection h with h2
  exact Option.noConfusion h2

/-- C6 (amended): for every catalog that does contain a template named
"group" and every truthy id, createNode with overrides title "X" returns
exactly the minimal group record — the override title wins over "Group",
and there are no config/input/output fields. -/
theorem createNode_group_amended (nodeTypes : List (String × List JVal))
    (t id position : JVal)
    (hfind : findTemplate nodeTypes "group" = some t)
    (hid : jvTruthy id = true) :
    createNode nodeTypes "group" id position
        (JVal.obj [("title", JVal.str "X")]) =
      Except.ok (some (JVal.obj [
        ("id", id),
        ("type", JVal.str "group"),
        ("position", position),
        ("data", JVal.obj [("title", JVal.str "X")]),
        ("style", JVal.obj [("width", JVal.num 300),
          ("height", JVal.num 300)])])) := by
  unfold createNode
  rw [if_neg (by simp), hfind]
  simp only [hid]
  rfl

theorem createNode_group_amended_witness :
    createNode [("builtin", [JVal.obj [("name", JVal.str "group")]])] "group"
        (JVal.str "n1") JVal.null (JVal.obj [("title", JVal.str "X")]) =
      Except.ok (some (JVal.obj [
        ("id", JVal.str "n1"),
        ("type", JVal.str "group"),
        ("position", JVal.null),
        ("data", JVal.obj [("title", JVal.str "X")]),
        ("style", JVal.obj [("width", JVal.num 300),
          ("height", JVal.num 300)])])) :=
  createNode_group_amended _ _ _ _ rfl (by decide)

def c4Node : JVal :=
  JVal.obj [("config", JVal.obj [("input_schema",
    JVal.obj [("foo", JVal.str "str")])])]

/-- C4 fails as stated: a whitespace-only newKey is NOT a no-op.  The
code normalizes whitespace runs to underscores before the emptiness
check, so renaming "foo" to " " turns into a real rename to "_", issuing
both the schema update and the edge update. -/
theorem rename_whitespace_only_counterexample :
    handleSchemaKeyEdit "n1" c4Node "foo" " " "input_schema" =
      Except.ok (some ⟨JVal.obj [("input_schema",
          JVal.obj [("_", JVal.str "str")])],
        ⟨"n1", "foo", "_", "input_schema"⟩⟩) ∧
    (∀ eff : RenameEffects,
      Except.ok (some eff) ≠
        (Except.ok none : Except Unit (Option RenameEffects))) := by
  refine ⟨rfl, fun eff h => ?_⟩
  injection h with h2
  exact Option.noConfusion h2

/-- C4 (amended): handleSchemaKeyEdit is a pure no-op (it only closes the
rename-editing UI) exactly for the inputs the guard catches: a newKey
whose whitespace-normalization equals oldKey, or the empty newKey.  (A
whitespace-only non-empty newKey normalizes to "_" and is not caught.) -/
theorem rename_noop_amended (id : String) (nodeData : JVal)
    (oldKey newKey schemaType : String)
    (h : jsNormalizeWs newKey = oldKey ∨ newKey = "") :
    handleSchemaKeyEdit id nodeData oldKey newKey schemaType =
      Except.ok none := by
  simp only [handleSchemaKeyEdit]
  rcases h with h | h
  · rw [if_pos (Or.inl h.symm)]
  · subst h
    rw [if_pos (Or.inr (show jsTrim (jsNormalizeWs "") = "" from rfl))]

theorem rename_noop_amended_witness :
    handleSchemaKeyEdit "n1" c4Node "foo" "foo" "input_schema" =
      Except.ok none ∧
    handleSchemaKeyEdit "n1" c4Node "foo" "" "input_schema" =
      Except.ok none :=
  ⟨rename_noop_amended "n1" c4Node "foo" "foo" "input_schema"
      (Or.inl (by decide)),
    rename_noop_amended "n1" c4Node "foo" "" "input_schema" (Or.inr rfl)⟩

/-- Characters that the regex well-formedness scanner treats as inert:
not an escape, class delimiter or group delimiter. -/
def plainRegexChar (c : Char) : Bool :=
  c ≠ '\\' && c ≠ '[' && c ≠ ']' && c ≠ '(' && c ≠ ')'

theorem regexScan_append_plain :
    ∀ (l r : List Char) (d : Nat) (ic : Bool),
      (∀ c ∈ l, plainRegexChar c = true) →
      regexScan (l ++ r) d ic false = regexScan r d ic false := by
  intro l
  induction l with
  | nil => intro r d ic _; rfl
  | cons c cs ih =>
      intro r d ic h
      have hc := h c (List.mem_cons_self _ _)
      simp only [plainRegexChar, Bool.and_eq_true, decide_eq_true_eq] at hc
      obtain ⟨⟨⟨⟨h1, h2⟩, h3⟩, h4⟩, h5⟩ := hc
      have hrest : ∀ x ∈ cs, plainRegexChar x = true :=
        fun x hx => h x (List.mem_cons_of_mem _ hx)
      rw [List.cons_append]
      have key : regexScan (c :: (cs ++ r)) d ic false =
          regexScan (cs ++ r) d ic false := by
        conv_lhs => unfold regexScan
        rw [if_neg (by simp), if_neg h1]
        cases ic with
        | true => rw [if_pos rfl, if_neg h3]
        | false => rw [if_neg (by simp), if_neg h2, if_neg h4, if_neg h5]
      rw [key]
      exact ih r d ic hrest

theorem ident_plainRegexChar {c : Char} (h : isIdentChar c = true) :
    plainRegexChar c = true := by
  have h1 : c ≠ '\\' := fun he => by subst he; exact absurd h (by decide)
  have h2 : c ≠ '[' := fun he => by subst he; exact absurd h (by decide)
  have h3 : c ≠ ']' := fun he => by subst he; exact absurd h (by decide)
  have h4 : c ≠ '(' := fun he => by subst he; exact absurd h (by decide)
  have h5 : c ≠ ')' := fun he => by subst he; exact absurd h (by decide)
  simp [plainRegexChar, h1, h2, h3, h4, h5]

theorem jsRegExpValid_ident (oldKey : String)
    (h : oldKey.toList.all isIdentChar = true) :
    jsRegExpValid (moustachePattern oldKey) = true := by
  unfold jsRegExpValid moustachePattern
  have hl : ("\x7b\x7b\\s*" ++ oldKey ++ "\\s*\x7d\x7d").toList =
      '{' :: '{' :: '\\' :: 's' :: '*' ::
        (oldKey.toList ++ ['\\', 's', '*', '}', '}']) := by
    simp [String.toList]
  rw [hl]
  have step : regexScan ('{' :: '{' :: '\\' :: 's' :: '*' ::
      (oldKey.toList ++ ['\\', 's', '*', '}', '}'])) 0 false false =
      regexScan (oldKey.toList ++ ['\\', 's', '*', '}', '}']) 0 false false := by
    simp [regexScan]
  rw [step, regexScan_append_plain oldKey.toList _ 0 false
    (fun c hc => ident_plainRegexChar (by
      have := List.all_eq_true.mp h c hc
      simpa using this))]
  rfl

def c9Node : JVal :=
  JVal.obj [("config", JVal.obj [
    ("input_schema", JVal.obj [("(", JVal.str "str")]),
    ("system_message", JVal.str "see \x7b\x7bx\x7d\x7d")])]

/-- C9 fails as stated: with a schema key containing an unbalanced regex
metacharacter, renaming it on a node that carries a system_message makes
the RegExp constructor inside updateMessageVariables throw — the editor
does crash rather than degrade to no visual change. -/
theorem rename_regex_throw_counterexample :
    handleSchemaKeyEdit "n1" c9Node "(" "y" "input_schema" =
      Except.error () := rfl

/-- Safety of the only non-optional member access in handleSchemaKeyEdit:
either the `nodeData?.config?` chain short-circuits, or the
`[schemaType]` entry it is read off is non-nullish. -/
def schemaAccessSafe (nodeData : JVal) (schemaType : String) : Bool :=
  jvIsNullish nodeData ||
    jvIsNullish (jvGet nodeData "config") ||
      !(jvIsNullish (jvGet (jvGet nodeData "config") schemaType))

/-- Message fields that `.replace` can run on: falsy (skipped) or a
string. -/
def msgSafe (v : JVal) : Bool :=
  !jvTruthy v ||
    (match v with
      | JVal.str _ => true
      | _ => false)

theorem except_bind_ok {α β : Type} {x : Except Unit α} {f : α → Except Unit β}
    (hx : ∃ a, x = Except.ok a) (hf : ∀ a, ∃ b, f a = Except.ok b) :
    ∃ b, x.bind f = Except.ok b := by
  obtain ⟨a, ha⟩ := hx
  obtain ⟨b, hb⟩ := hf a
  exact ⟨b, by rw [ha]; simpa [Except.bind] using hb⟩

theorem updateMessageVariables_ok_of_safe (m : JVal) (oldKey nk : String)
    (hident : oldKey.toList.all isIdentChar = true)
    (hm : msgSafe m = true) :
    ∃ r, updateMessageVariables m oldKey nk = Except.ok r := by
  unfold updateMessageVariables
  by_cases ht : jvTruthy m = true
  · rw [if_neg (by simp [ht])]
    rw [if_neg (by simp [jsRegExpValid_ident oldKey hident])]
    unfold msgSafe at hm
    rw [ht] at hm
    simp only [Bool.not_true, Bool.false_or] at hm
    cases m with
    | str s => exact ⟨_, rfl⟩
    | num n => cases hm
    | bool b => cases hm
    | null => cases hm
    | undef => cases hm
    | obj fs => cases hm
    | arr es => cases hm
  · rw [if_pos (by simp [Bool.not_eq_true] at ht; simp [ht])]
    exact ⟨m, rfl⟩

/-- C9 (amended): when the old key is made of identifier characters (so the
built pattern is a valid regex), the schema member access is safe, and both
message fields are falsy-or-string, handleSchemaKeyEdit returns normally
for every newKey and schemaType. -/
theorem rename_no_throw_amended (id : String) (nodeData : JVal)
    (oldKey newKey0 schemaType : String)
    (hident : oldKey.toList.all isIdentChar = true)
    (hsafe : schemaAccessSafe nodeData schemaType = true)
    (hms : msgSafe (jvChain2 nodeData "config" "system_message") = true)
    (hmu : msgSafe (jvChain2 nodeData "config" "user_message") = true) :
    ∃ r, handleSchemaKeyEdit id nodeData oldKey newKey0 schemaType =
      Except.ok r := by
  unfold handleSchemaKeyEdit
  by_cases hg : oldKey = jsNormalizeWs newKey0 ∨ jsTrim (jsNormalizeWs newKey0) = ""
  · rw [if_pos hg]; exact ⟨none, rfl⟩
  rw [if_neg hg]
  obtain ⟨ms, hmsr⟩ := updateMessageVariables_ok_of_safe
    (jvChain2 nodeData "config" "system_message") oldKey (jsNormalizeWs newKey0)
    hident hms
  obtain ⟨mu, hmur⟩ := updateMessageVariables_ok_of_safe
    (jvChain2 nodeData "config" "user_message") oldKey (jsNormalizeWs newKey0)
    hident hmu
  unfold schemaAccessSafe at hsafe
  by_cases h1 : jvIsNullish nodeData = true
  · by_cases hst : schemaType = "input_schema" <;>
      by_cases ht1 : jvTruthy (jvChain2 nodeData "config" "system_message") = true <;>
        by_cases ht2 : jvTruthy (jvChain2 nodeData "config" "user_message") = true <;>
          simp [h1, hst, ht1, ht2, hmsr, hmur, bind, Except.bind, pure, Except.pure]
  · by_cases h2 : jvIsNullish (jvGet nodeData "config") = true
    · by_cases hst : schemaType = "input_schema" <;>
        by_cases ht1 : jvTruthy (jvChain2 nodeData "config" "system_message") = true <;>
          by_cases ht2 : jvTruthy (jvChain2 nodeData "config" "user_message") = true <;>
            simp [h1, h2, hst, ht1, ht2, hmsr, hmur, bind, Except.bind, pure,
              Except.pure]
    · have h1f : jvIsNullish nodeData = false := by simpa using h1
      have h2f : jvIsNullish (jvGet nodeData "config") = false := by simpa using h2
      have h3 : jvIsNullish (jvGet (jvGet nodeData "config") schemaType) = false := by
        rw [h1f, h2f] at hsafe
        simpa using hsafe
      by_cases hst : schemaType = "input_schema"
      · subst hst
        by_cases ht1 : jvTruthy (jvChain2 nodeData "config" "system_message") = true <;>
          by_cases ht2 : jvTruthy (jvChain2 nodeData "config" "user_message") = true <;>
            simp [h1f, h2f, h3, ht1, ht2, hmsr, hmur, bind, Except.bind, pure,
              Except.pure]
      · by_cases ht1 : jvTruthy (jvChain2 nodeData "config" "system_message") = true <;>
          by_cases ht2 : jvTruthy (jvChain2 nodeData "config" "user_message") = true <;>
            simp [h1f, h2f, h3, hst, ht1, ht2, hmsr, hmur, bind, Except.bind, pure,
              Except.pure]

/-- A node with an identifier schema key and a message, on which the rename
machinery runs end to end. -/
def c9GoodNode : JVal :=
  JVal.obj [("config", JVal.obj [
    ("input_schema", JVal.obj [("foo", JVal.str "str")]),
    ("system_message", JVal.str "see \x7b\x7b foo \x7d\x7d")])]

def exceptIsOk {α : Type} : Except Unit α → Bool
  | Except.ok _ => true
  | Except.error _ => false

theorem rename_no_throw_amended_witness :
    exceptIsOk (handleSchemaKeyEdit "n1" c9GoodNode "foo" "bar" "input_schema") =
      true := by
  obtain ⟨r, hr⟩ := rename_no_throw_amended "n1" c9GoodNode "foo" "bar"
    "input_schema" (by decide) (by rfl) (by rfl) (by rfl)
  rw [hr]
  rfl

/-- The node object inside a successful non-null createNode result
(undefined otherwise). -/
def createdNode : Except Unit (Option JVal) → JVal
  | Except.ok (some n) => n
  | _ => JVal.undef

/-- Field list of `node.data[side].properties` of a createNode result. -/
def createdProps (r : Except Unit (Option JVal)) (side : String) :
    List (String × JVal) :=
  jvFields (jvGet (jvGet (jvGet (createdNode r) "data") side) "properties")

/-- Whether a createNode result is a non-null node. -/
def isOkSome : Except Unit (Option JVal) → Bool
  | Except.ok (some _) => true
  | _ => false

/-- A one-category catalog whose template "T" declares one input property
"a" and one output property "b". -/
def c2Catalog : List (String × List JVal) :=
  [("cat", [JVal.obj [
    ("name", JVal.str "T"),
    ("input", JVal.obj [("properties", JVal.obj [("a", JVal.str "str")])]),
    ("output", JVal.obj [("properties", JVal.obj [("b", JVal.str "str")])]),
    ("visual_tag", JVal.obj [("acronym", JVal.str "T"),
      ("color", JVal.str "blue")]),
    ("config", JVal.obj [])]])]

/-- Overrides that carry an `input` block with no `properties` entry. -/
def c2Overrides : JVal := JVal.obj [("input", JVal.obj [])]

/-- C2 fails as stated: with overrides carrying an `input` block whose
`properties` is absent, the template's input property "a" (never
overridden) is missing from the created node's data.input.properties — the
final `...processedAdditionalData` spread replaces the whole `input` block
instead of per-key-merging its properties. -/
theorem createNode_merge_counterexample :
    olookup (createdProps (createNode c2Catalog "T" (JVal.str "i")
      (JVal.str "p") c2Overrides) "input") "a" = none := rfl

/-- C2 (amended): when the overrides object carries truthy
`input.properties` and `output.properties` blocks, createNode returns a
node whose data.input.properties and data.output.properties are the
per-key union of override properties over template properties (override
wins); an override block whose `properties` entry is falsy instead
replaces the whole input/output block via the final
`...processedAdditionalData` spread (see the counterexample). -/
theorem jvGet_obj (fs : List (String × JVal)) (k : String) :
    jvGet (JVal.obj fs) k = (olookup fs k).getD JVal.undef := rfl

theorem createNode_merge_amended
    (nodeTypes : List (String × List JVal)) (type : String) (id position : JVal)
    (t : JVal) (adF inF outF tfsI pfsI tfsO pfsO : List (String × JVal))
    (hfind : findTemplate nodeTypes type = some t)
    (hgrp : ¬type = "group")
    (hvt : jvIsNullish (jvGet t "visual_tag") = false)
    (hin : olookup adF "input" = some (JVal.obj inF))
    (hout : olookup adF "output" = some (JVal.obj outF))
    (hpI : olookup inF "properties" = some (JVal.obj pfsI))
    (hpO : olookup outF "properties" = some (JVal.obj pfsO))
    (htI : jvChain2 t "input" "properties" = JVal.obj tfsI)
    (htO : jvChain2 t "output" "properties" = JVal.obj tfsO)
    (hndAd : objNodupKeys adF)
    (hndI : objNodupKeys pfsI)
    (hndO : objNodupKeys pfsO) :
    isOkSome (createNode nodeTypes type id position (JVal.obj adF)) = true ∧
    (∀ k, olookup (createdProps (createNode nodeTypes type id position
        (JVal.obj adF)) "input") k = (olookup pfsI k).or (olookup tfsI k)) ∧
    (∀ k, olookup (createdProps (createNode nodeTypes type id position
        (JVal.obj adF)) "output") k = (olookup pfsO k).or (olookup tfsO k)) := by
  have hADin : jvChain2 (JVal.obj adF) "input" "properties" = JVal.obj pfsI := by
    simp [jvChain2, jvIsNullish, jvGet, hin, hpI]
  have hADout : jvChain2 (JVal.obj adF) "output" "properties" = JVal.obj pfsO := by
    simp [jvChain2, jvIsNullish, jvGet, hout, hpO]
  have hnn : jvIsNullish (JVal.obj adF) = false := rfl
  refine ⟨?_, ?_, ?_⟩
  · simp [createNode, isOkSome, hfind, hADin, hADout, htI, htO, jvTruthy,
      hnn, hvt, hgrp]
  · intro k
    simp [createNode, createdProps, createdNode, hfind, hADin, hADout, htI, htO,
      jvTruthy, hnn, jvSetKeyV, jvFields, jvGet_obj, hin, hout, hpI, hpO,
      hvt, hgrp, olookup_objSetKey_self, olookup_objSetKey_ne, olookup]
    have hndPad : objNodupKeys (objSetKey
        (objSetKey adF "input" (JVal.obj (objSetKey inF "properties"
          (JVal.obj (objSpread tfsI pfsI))))) "output"
        (JVal.obj (objSetKey outF "properties"
          (JVal.obj (objSpread tfsO pfsO))))) :=
      objNodupKeys_objSetKey (objNodupKeys_objSetKey hndAd)
    rw [olookup_objSpread _ _ _ hndPad,
      olookup_objSetKey_ne _ _ _ _ (show ("input" : String) ≠ "output" by decide),
      olookup_objSetKey_self]
    simp [jvGet_obj, olookup_objSetKey_self, jvFields,
      olookup_objSpread _ _ _ hndI]
  · intro k
    simp [createNode, createdProps, createdNode, hfind, hADin, hADout, htI, htO,
      jvTruthy, hnn, jvSetKeyV, jvFields, jvGet_obj, hin, hout, hpI, hpO,
      hvt, hgrp, olookup_objSetKey_self, olookup_objSetKey_ne, olookup]
    have hndPad2 : objNodupKeys (objSetKey
        (objSetKey adF "input" (JVal.obj (objSetKey inF "properties"
          (JVal.obj (objSpread tfsI pfsI))))) "output"
        (JVal.obj (objSetKey outF "properties"
          (JVal.obj (objSpread tfsO pfsO))))) :=
      objNodupKeys_objSetKey (objNodupKeys_objSetKey hndAd)
    rw [olookup_objSpread _ _ _ hndPad2, olookup_objSetKey_self]
    simp [jvGet_obj, olookup_objSetKey_self, jvFields,
      olookup_objSpread _ _ _ hndO]

/-- The template object stored in c2Catalog under name "T". -/
def c2Template : JVal :=
  JVal.obj [("name", JVal.str "T"),
    ("input", JVal.obj [("properties", JVal.obj [("a", JVal.str "str")])]),
    ("output", JVal.obj [("properties", JVal.obj [("b", JVal.str "str")])]),
    ("visual_tag", JVal.obj [("acronym", JVal.str "T"),
      ("color", JVal.str "blue")]),
    ("config", JVal.obj [])]

/-- Override fields carrying truthy input.properties and output.properties:
"a" overridden to "int", "c" and "d" added. -/
def c2WadF : List (String × JVal) :=
  [("input", JVal.obj [("properties",
      JVal.obj [("a", JVal.str "int"), ("c", JVal.str "str")])]),
   ("output", JVal.obj [("properties", JVal.obj [("d", JVal.str "str")])])]

theorem createNode_merge_amended_witness :
    isOkSome (createNode c2Catalog "T" (JVal.str "i") (JVal.str "p")
      (JVal.obj c2WadF)) = true ∧
    olookup (createdProps (createNode c2Catalog "T" (JVal.str "i")
      (JVal.str "p") (JVal.obj c2WadF)) "input") "a" = some (JVal.str "int") ∧
    olookup (createdProps (createNode c2Catalog "T" (JVal.str "i")
      (JVal.str "p") (JVal.obj c2WadF)) "input") "c" = some (JVal.str "str") ∧
    olookup (createdProps (createNode c2Catalog "T" (JVal.str "i")
      (JVal.str "p") (JVal.obj c2WadF)) "output") "b" = some (JVal.str "str") ∧
    olookup (createdProps (createNode c2Catalog "T" (JVal.str "i")
      (JVal.str "p") (JVal.obj c2WadF)) "output") "d" = some (JVal.str "str") := by
  obtain ⟨h1, h2, h3⟩ := createNode_merge_amended c2Catalog "T" (JVal.str "i")
    (JVal.str "p") c2Template c2WadF
    [("properties", JVal.obj [("a", JVal.str "int"), ("c", JVal.str "str")])]
    [("properties", JVal.obj [("d", JVal.str "str")])]
    [("a", JVal.str "str")] [("a", JVal.str "int"), ("c", JVal.str "str")]
    [("b", JVal.str "str")] [("d", JVal.str "str")]
    rfl (by decide) rfl rfl rfl rfl rfl rfl rfl
    (by unfold objNodupKeys; decide) (by unfold objNodupKeys; decide)
    (by unfold objNodupKeys; decide)
  exact ⟨h1, (h2 "a").trans (by decide), (h2 "c").trans (by decide),
    (h3 "b").trans (by decide), (h3 "d").trans (by decide)⟩

/-- Value inside an ok result, with a default for the error case. -/
def exceptGetD {α : Type} (d : α) : Except Unit α → α
  | Except.ok a => a
  | Except.error _ => d

/-- The `definition.nodes` array of a built workflow document. -/
def docNodes (r : Except Unit JVal) : List JVal :=
  match r with
  | Except.ok d =>
      match jvGet (jvGet d "definition") "nodes" with
      | JVal.arr ns => ns
      | _ => []
  | Except.error _ => []

/-- The `definition.links` array of a built workflow document. -/
def docLinks (r : Except Unit JVal) : List JVal :=
  match r with
  | Except.ok d =>
      match jvGet (jvGet d "definition") "links" with
      | JVal.arr ls => ls
      | _ => []
  | Except.error _ => []

theorem exceptMap_eq_ok_map {α β : Type} (f : α → Except Unit β) (g : α → β) :
    ∀ (l : List α), (∀ x ∈ l, f x = Except.ok (g x)) →
      exceptMap f l = Except.ok (l.map g) := by
  intro l
  induction l with
  | nil => intro _; rfl
  | cons x xs ih =>
      intro h
      have hx := h x (List.mem_cons_self _ _)
      have hxs := ih fun y hy => h y (List.mem_cons_of_mem _ hy)
      simp [exceptMap, hx, hxs, bind, Except.bind]

theorem findNodeE_ok (idStr : String) :
    ∀ (l : List JVal), (∀ n ∈ l, jvIsNullish n = false) →
      ∃ r, findNodeE idStr l = Except.ok r := by
  intro l
  induction l with
  | nil => intro _; exact ⟨none, rfl⟩
  | cons n rest ih =>
      intro h
      have hn := h n (List.mem_cons_self _ _)
      obtain ⟨r, hr⟩ := ih fun m hm => h m (List.mem_cons_of_mem _ hm)
      unfold findNodeE
      rw [hn]
      by_cases hid : jvGet n "id" = JVal.str idStr
      · rw [if_pos hid]
        exact ⟨some n, by simp⟩
      · rw [if_neg hid]
        exact ⟨r, by simp [hr]⟩

theorem buildLink_fields (nodes : List JVal)
    (h : ∀ n ∈ nodes, jvIsNullish n = false) (e : Edge) :
    buildLink nodes e =
      Except.ok (exceptGetD JVal.undef (buildLink nodes e)) ∧
    jvGet (exceptGetD JVal.undef (buildLink nodes e)) "source_output_key" =
      JVal.str e.sourceHandle ∧
    jvGet (exceptGetD JVal.undef (buildLink nodes e)) "target_input_key" =
      JVal.str e.targetHandle := by
  obtain ⟨sn, hsn⟩ := findNodeE_ok e.source nodes h
  obtain ⟨tn, htn⟩ := findNodeE_ok e.target nodes h
  have hv : buildLink nodes e = Except.ok (JVal.obj [
      ("source_id", JVal.str e.source),
      ("source_output_key", JVal.str e.sourceHandle),
      ("source_output_type",
        jsOr (jvChainGet (match sn with | none => JVal.undef | some n => n)
          ["config", "data", "output_schema", e.sourceHandle]) (JVal.str "str")),
      ("target_id", JVal.str e.target),
      ("target_input_key", JVal.str e.targetHandle),
      ("target_input_type",
        jsOr (jvChainGet (match tn with | none => JVal.undef | some n => n)
          ["config", "data", "input_schema", e.targetHandle])
          (JVal.str "str"))]) := by
    simp [buildLink, hsn, htn, bind, Except.bind]
    cases sn <;> cases tn <;> exact ⟨rfl, rfl⟩
  rw [hv]
  refine ⟨rfl, ?_, ?_⟩ <;> simp [exceptGetD, jvGet, olookup]

theorem ok_exceptGetD {α : Type} (d : α) {x : Except Unit α}
    (h : ∃ v, x = Except.ok v) : x = Except.ok (exceptGetD d x) := by
  obtain ⟨v, hv⟩ := h
  rw [hv]
  rfl

theorem docNodes_ok (ns ls : List JVal) (wn ti : JVal) :
    docNodes (Except.ok (JVal.obj [("name", wn), ("definition", JVal.obj
      [("nodes", JVal.arr ns), ("links", JVal.arr ls),
       ("test_inputs", ti)])])) = ns := by
  simp [docNodes, jvGet_obj, olookup]

theorem docLinks_ok (ns ls : List JVal) (wn ti : JVal) :
    docLinks (Except.ok (JVal.obj [("name", wn), ("definition", JVal.obj
      [("nodes", JVal.arr ns), ("links", JVal.arr ls),
       ("test_inputs", ti)])])) = ls := by
  simp [docLinks, jvGet_obj, olookup]

/-- C7: for a node list pre ++ [n0] ++ post with no nullish entries whose
only InputNode is n0 (with non-nullish data), the built workflow document
serializes n0 with config.input_schema mapping each declared workflow
input variable name to "str" (overriding whatever schema it carried), and
every edge is serialized to a link record whose source_output_key /
target_input_key are the edge's own handles. -/
theorem saveWorkflow_input_schema_correct
    (pre post : List JVal) (n0 : JVal) (edges : List Edge)
    (wiv : List (String × JVal)) (wn ti : JVal)
    (hnn : ∀ n ∈ pre ++ n0 :: post, jvIsNullish n = false)
    (hty0 : jvGet n0 "type" = JVal.str "InputNode")
    (hdata : jvIsNullish (jvGet n0 "data") = false)
    (hothers : ∀ n ∈ pre ++ post, ¬jvGet n "type" = JVal.str "InputNode") :
    exceptIsOk (saveWorkflowDoc (pre ++ n0 :: post) edges wiv wn ti) = true ∧
    jvGet (jvGet ((docNodes (saveWorkflowDoc (pre ++ n0 :: post) edges wiv wn
        ti)).getD pre.length JVal.undef) "config") "input_schema" =
      JVal.obj (wiv.map fun kv => (kv.1, JVal.str "str")) ∧
    (docLinks (saveWorkflowDoc (pre ++ n0 :: post) edges wiv wn ti)).length =
      edges.length ∧
    (∀ i, i < edges.length →
      jvGet ((docLinks (saveWorkflowDoc (pre ++ n0 :: post) edges wiv wn
          ti)).getD i JVal.undef) "source_output_key" =
        JVal.str ((edges.getD i ⟨"", "", "", ""⟩).sourceHandle) ∧
      jvGet ((docLinks (saveWorkflowDoc (pre ++ n0 :: post) edges wiv wn
          ti)).getD i JVal.undef) "target_input_key" =
        JVal.str ((edges.getD i ⟨"", "", "", ""⟩).targetHandle)) := by
  have hfilter : (pre ++ n0 :: post).filter
      (fun n => decide (n ≠ JVal.null) && decide (n ≠ JVal.undef)) =
      pre ++ n0 :: post := by
    apply List.filter_eq_self.mpr
    intro a ha
    have h := hnn a ha
    cases a <;> simp_all [jvIsNullish]
  have hok : ∀ n ∈ pre ++ n0 :: post,
      ∃ v, serializeNodeForSave wiv n = Except.ok v := by
    intro n hn
    rcases List.mem_append.mp hn with hpre | hpost
    · exact ⟨_, by
        unfold serializeNodeForSave
        rw [if_neg (hothers n (List.mem_append.mpr (Or.inl hpre)))]⟩
    · rcases List.mem_cons.mp hpost with heq | hpost2
      · subst heq
        refine ⟨JVal.obj (objSetKey (jvFields n) "config"
          (JVal.obj (objSetKey (jvFields (jvGet (jvGet n "data") "config"))
            "input_schema"
            (JVal.obj (wiv.map fun kv => (kv.1, JVal.str "str")))))), ?_⟩
        unfold serializeNodeForSave
        rw [if_pos hty0, if_neg (by simp [hdata])]
      · exact ⟨_, by
          unfold serializeNodeForSave
          rw [if_neg (hothers n (List.mem_append.mpr (Or.inr hpost2)))]⟩
  have hser : ∀ n ∈ pre ++ n0 :: post, serializeNodeForSave wiv n =
      Except.ok (exceptGetD JVal.undef (serializeNodeForSave wiv n)) :=
    fun n hn => ok_exceptGetD _ (hok n hn)
  have hmapN : exceptMap (serializeNodeForSave wiv) (pre ++ n0 :: post) =
      Except.ok ((pre ++ n0 :: post).map
        fun n => exceptGetD JVal.undef (serializeNodeForSave wiv n)) :=
    exceptMap_eq_ok_map _ _ _ hser
  have hlink : ∀ e ∈ edges, buildLink (pre ++ n0 :: post) e =
      Except.ok (exceptGetD JVal.undef (buildLink (pre ++ n0 :: post) e)) :=
    fun e _ => (buildLink_fields _ hnn e).1
  have hmapL : exceptMap (buildLink (pre ++ n0 :: post)) edges =
      Except.ok (edges.map
        fun e => exceptGetD JVal.undef (buildLink (pre ++ n0 :: post) e)) :=
    exceptMap_eq_ok_map _ _ _ hlink
  have hdoc : saveWorkflowDoc (pre ++ n0 :: post) edges wiv wn ti =
      Except.ok (JVal.obj [("name", wn),
        ("definition", JVal.obj [
          ("nodes", JVal.arr (((pre ++ n0 :: post).map
            (fun n => exceptGetD JVal.undef
              (serializeNodeForSave wiv n))).map projectNode)),
          ("links", JVal.arr (edges.map fun e =>
            exceptGetD JVal.undef (buildLink (pre ++ n0 :: post) e))),
          ("test_inputs", ti)])]) := by
    simp only [saveWorkflowDoc]
    rw [hfilter, hmapN, hmapL]
    simp [bind, Except.bind]
  refine ⟨?_, ?_, ?_, ?_⟩
  · rw [hdoc]; rfl
  · rw [hdoc]
    have hgn0 : exceptGetD JVal.undef (serializeNodeForSave wiv n0) =
        JVal.obj (objSetKey (jvFields n0) "config"
          (JVal.obj (objSetKey (jvFields (jvGet (jvGet n0 "data") "config"))
            "input_schema"
            (JVal.obj (wiv.map fun kv => (kv.1, JVal.str "str")))))) := by
      have hv : serializeNodeForSave wiv n0 =
          Except.ok (JVal.obj (objSetKey (jvFields n0) "config"
            (JVal.obj (objSetKey (jvFields (jvGet (jvGet n0 "data") "config"))
              "input_schema"
              (JVal.obj (wiv.map fun kv => (kv.1, JVal.str "str"))))))) := by
        unfold serializeNodeForSave
        rw [if_pos hty0, if_neg (by simp [hdata])]
      rw [hv]
      rfl
    rw [docNodes_ok]
    rw [List.getD_eq_getElem?_getD, List.getElem?_map, List.getElem?_map,
      List.getElem?_append_right (Nat.le_refl pre.length), Nat.sub_self]
    simp only [List.getElem?_cons_zero, Option.map_some', Option.getD_some]
    rw [hgn0]
    simp [projectNode, jvGet_obj, olookup, olookup_objSetKey_self]
  · rw [hdoc, docLinks_ok]
    simp
  · intro i hi
    rw [hdoc]
    have he : edges[i]? = some (edges.getD i ⟨"", "", "", ""⟩) := by
      rw [List.getD_eq_getElem?_getD]
      cases h : edges[i]? with
      | none =>
          have := List.getElem?_eq_none_iff.mp h
          omega
      | some e => rfl
    have hdl : ∀ (nm : String), jvGet ((docLinks (Except.ok (JVal.obj
        [("name", wn), ("definition", JVal.obj [
          ("nodes", JVal.arr (((pre ++ n0 :: post).map
            (fun n => exceptGetD JVal.undef
              (serializeNodeForSave wiv n))).map projectNode)),
          ("links", JVal.arr (edges.map fun e =>
            exceptGetD JVal.undef (buildLink (pre ++ n0 :: post) e))),
          ("test_inputs", ti)])]))).getD i JVal.undef) nm =
        jvGet (exceptGetD JVal.undef (buildLink (pre ++ n0 :: post)
          (edges.getD i ⟨"", "", "", ""⟩))) nm := by
      intro nm
      rw [docLinks_ok]
      rw [List.getD_eq_getElem?_getD, List.getElem?_map, he]
      rfl
    have hbf := buildLink_fields (pre ++ n0 :: post) hnn
      (edges.getD i ⟨"", "", "", ""⟩)
    exact ⟨(hdl "source_output_key").trans hbf.2.1,
      (hdl "target_input_key").trans hbf.2.2⟩

/-- A graph-input node carrying a prior input_schema \x7bold: "str"\x7d. -/
def c7InputNode : JVal :=
  JVal.obj [("id", JVal.str "n1"), ("type", JVal.str "InputNode"),
    ("position", JVal.str "p"),
    ("data", JVal.obj [
      ("config", JVal.obj [("input_schema",
        JVal.obj [("old", JVal.str "str")])]),
      ("title", JVal.str "In")])]

/-- A second, non-input node. -/
def c7OtherNode : JVal :=
  JVal.obj [("id", JVal.str "n2"), ("type", JVal.str "Other"),
    ("position", JVal.str "q"), ("data", JVal.obj [])]

theorem saveWorkflow_input_schema_correct_witness :
    exceptIsOk (saveWorkflowDoc [c7InputNode, c7OtherNode]
      [⟨"n1", "a", "n2", "x"⟩] [("a", JVal.num 1), ("b", JVal.num 2)]
      (JVal.str "wf") (JVal.obj [])) = true ∧
    jvGet (jvGet ((docNodes (saveWorkflowDoc [c7InputNode, c7OtherNode]
        [⟨"n1", "a", "n2", "x"⟩] [("a", JVal.num 1), ("b", JVal.num 2)]
        (JVal.str "wf") (JVal.obj []))).getD 0 JVal.undef) "config")
      "input_schema" =
      JVal.obj [("a", JVal.str "str"), ("b", JVal.str "str")] ∧
    jvGet ((docLinks (saveWorkflowDoc [c7InputNode, c7OtherNode]
        [⟨"n1", "a", "n2", "x"⟩] [("a", JVal.num 1), ("b", JVal.num 2)]
        (JVal.str "wf") (JVal.obj []))).getD 0 JVal.undef)
      "source_output_key" = JVal.str "a" ∧
    jvGet ((docLinks (saveWorkflowDoc [c7InputNode, c7OtherNode]
        [⟨"n1", "a", "n2", "x"⟩] [("a", JVal.num 1), ("b", JVal.num 2)]
        (JVal.str "wf") (JVal.obj []))).getD 0 JVal.undef)
      "target_input_key" = JVal.str "x" := by
  obtain ⟨h1, h2, h3, h4⟩ := saveWorkflow_input_schema_correct
    [] [c7OtherNode] c7InputNode [⟨"n1", "a", "n2", "x"⟩]
    [("a", JVal.num 1), ("b", JVal.num 2)] (JVal.str "wf") (JVal.obj [])
    (by decide) rfl rfl (by decide)
  exact ⟨h1, h2.trans rfl, ((h4 0 (by decide)).1).trans rfl,
    ((h4 0 (by decide)).2).trans rfl⟩

/-- Catalog/overrides heap for the sharing counterexample: address 0 a
nested object \x7bx:1\x7d, address 1 the overrides \x7bnested:(ref 0)\x7d,
addresses 2-4 a catalog containing a template named "group". -/
def c3Store : Store :=
  [HObj.obj [("x", HVal.prim (.num 1))],
   HObj.obj [("nested", HVal.ref 0)],
   HObj.obj [("name", HVal.prim (.str "group"))],
   HObj.arr [HVal.ref 2],
   HObj.obj [("cat", HVal.ref 3)]]

/-- The createNode call on the sharing counterexample heap. -/
def c3Result : Except Unit (Option HVal) × Store :=
  createNodeH 10 (HVal.ref 4) "group" (HVal.prim (.str "n1"))
    (HVal.prim (.str "pos")) (HVal.ref 1) c3Store

/-- C3 fails as stated: for a `group` node, `data: \x7btitle: ...,
...additionalData\x7d` spreads the RAW overrides — the returned node's
`data.nested` is the very object `overrides.nested` (address 0), so
writing `node.data.nested.x = 2` changes `overrides.nested.x` from 1 to 2:
the returned node shares mutable structure with the overrides argument. -/
theorem createNode_sharing_counterexample :
    c3Result.1 = Except.ok (some (HVal.ref 11)) ∧
    hGetField c3Result.2 (hGetField c3Result.2 (HVal.ref 11) "data") "nested" =
      HVal.ref 0 ∧
    hGetField c3Result.2 (HVal.ref 1) "nested" = HVal.ref 0 ∧
    hGetField c3Result.2 (hGetField c3Result.2 (HVal.ref 1) "nested") "x" =
      HVal.prim (.num 1) ∧
    hGetField (hSetFieldV c3Result.2 (hGetField c3Result.2 (hGetField
        c3Result.2 (HVal.ref 11) "data") "nested") "x" (HVal.prim (.num 2)))
      (hGetField c3Result.2 (HVal.ref 1) "nested") "x" = HVal.prim (.num 2) :=
  ⟨rfl, rfl, rfl, rfl, rfl⟩

/-- Decomposition of a message into literal spans and moustache tokens of
the old key: `tok w1 w2` renders as a double-braced token with whitespace
runs `w1`/`w2` around the key. -/
inductive MPart where
  | lit : List Char → MPart
  | tok : List Char → List Char → MPart
deriving DecidableEq, Repr

def renderPart (old : List Char) : MPart → List Char
  | .lit s => s
  | .tok w1 w2 => '{' :: '{' :: (w1 ++ old ++ w2 ++ ['}', '}'])

def renderParts (old : List Char) : List MPart → List Char
  | [] => []
  | p :: ps => renderPart old p ++ renderParts old ps

/-- The same message after the global replacement: every token becomes the
fixed replacement text, literal spans pass through. -/
def renderReplaced (rep : List Char) : List MPart → List Char
  | [] => []
  | MPart.lit s :: ps => s ++ renderReplaced rep ps
  | MPart.tok _ _ :: ps => rep ++ renderReplaced rep ps

/-- Well-formed part: a literal span free of `\x7b` (so no match can start
inside it), a token with genuine whitespace runs. -/
def partOKb : MPart → Bool
  | .lit s => s.all fun c => c ≠ '{'
  | .tok w1 w2 => w1.all isWsChar && w2.all isWsChar

def partsOKb (ps : List MPart) : Bool := ps.all partOKb

theorem ident_not_ws {c : Char} (h : isIdentChar c = true) :
    isWsChar c = false := by
  have h1 : c ≠ ' ' := fun he => by subst he; exact absurd h (by decide)
  have h2 : c ≠ '\t' := fun he => by subst he; exact absurd h (by decide)
  have h3 : c ≠ '\n' := fun he => by subst he; exact absurd h (by decide)
  have h4 : c ≠ '\r' := fun he => by subst he; exact absurd h (by decide)
  have h5 : c ≠ '\x0b' := fun he => by subst he; exact absurd h (by decide)
  have h6 : c ≠ '\x0c' := fun he => by subst he; exact absurd h (by decide)
  simp [isWsChar, h1, h2, h3, h4, h5, h6]

theorem stripLit_self_append (l r : List Char) : stripLit l (l ++ r) = some r := by
  induction l with
  | nil => rfl
  | cons c cs ih =>
      rw [List.cons_append]
      unfold stripLit
      rw [if_pos rfl]
      exact ih

theorem dropWhile_all_append (p : Char → Bool) (w t : List Char)
    (hw : ∀ c ∈ w, p c = true) :
    (w ++ t).dropWhile p = t.dropWhile p := by
  induction w with
  | nil => rfl
  | cons c cs ih =>
      rw [List.cons_append, List.dropWhile_cons_of_pos (hw c (List.mem_cons_self _ _))]
      exact ih fun x hx => hw x (List.mem_cons_of_mem _ hx)

theorem tryMatch_none_of_head (old : List Char) {c : Char} (t : List Char)
    (hc : c ≠ '{') : tryMatch old (c :: t) = none := by
  cases t with
  | nil => rfl
  | cons d ds =>
      unfold tryMatch
      show (if c = '{' ∧ d = '{' then
          (stripLit old (tryMatch.dropWs ds)).bind
            fun rest2 => tryMatch.closeBraces (tryMatch.dropWs rest2)
        else none) = none
      rw [if_neg fun h => hc h.1]

theorem tryMatch_token (old w1 w2 r : List Char)
    (hone : old ≠ []) (hid : ∀ c ∈ old, isIdentChar c = true)
    (hw1 : ∀ c ∈ w1, isWsChar c = true) (hw2 : ∀ c ∈ w2, isWsChar c = true) :
    tryMatch old ('{' :: '{' :: (w1 ++ (old ++ (w2 ++ ('}' :: '}' :: r))))) =
      some r := by
  unfold tryMatch
  show (if ('{' : Char) = '{' ∧ ('{' : Char) = '{' then
      (stripLit old (tryMatch.dropWs
        (w1 ++ (old ++ (w2 ++ ('}' :: '}' :: r)))))).bind
        fun rest2 => tryMatch.closeBraces (tryMatch.dropWs rest2)
    else none) = some r
  rw [if_pos ⟨rfl, rfl⟩]
  have hd1 : tryMatch.dropWs (w1 ++ (old ++ (w2 ++ ('}' :: '}' :: r)))) =
      old ++ (w2 ++ ('}' :: '}' :: r)) := by
    unfold tryMatch.dropWs
    rw [dropWhile_all_append _ _ _ hw1]
    cases old with
    | nil => exact absurd rfl hone
    | cons o os =>
        rw [List.cons_append]
        exact List.dropWhile_cons_of_neg (by
          simp [ident_not_ws (hid o (List.mem_cons_self _ _))])
  rw [hd1, stripLit_self_append]
  have hd2 : tryMatch.dropWs (w2 ++ ('}' :: '}' :: r)) = '}' :: '}' :: r := by
    unfold tryMatch.dropWs
    rw [dropWhile_all_append _ _ _ hw2]
    exact List.dropWhile_cons_of_neg (by decide)
  show (tryMatch.closeBraces (tryMatch.dropWs (w2 ++ ('}' :: '}' :: r)))) = some r
  rw [hd2]
  rfl

theorem expandDollar_no_dollar (matched before after : List Char) :
    ∀ (t : List Char), (∀ c ∈ t, c ≠ '$') →
      expandDollar matched before after false t = t := by
  intro t
  induction t with
  | nil => intro _; rfl
  | cons c cs ih =>
      intro h
      unfold expandDollar
      rw [if_neg (h c (List.mem_cons_self _ _))]
      rw [ih fun x hx => h x (List.mem_cons_of_mem _ hx)]

theorem replaceTokGo_cons_none (old rep : List Char) (fuel : Nat)
    (seen : List Char) (c : Char) (cs : List Char)
    (h : tryMatch old (c :: cs) = none) :
    replaceTokGo old rep (fuel + 1) seen (c :: cs) =
      c :: replaceTokGo old rep fuel (seen ++ [c]) cs := by
  conv_lhs => unfold replaceTokGo
  show (match tryMatch old (c :: cs) with
    | some tail =>
        expandDollar ((c :: cs).take ((c :: cs).length - tail.length))
            seen tail false rep ++
          replaceTokGo old rep fuel
            (seen ++ (c :: cs).take ((c :: cs).length - tail.length)) tail
    | none => c :: replaceTokGo old rep fuel (seen ++ [c]) cs) = _
  rw [h]

theorem replaceTokGo_cons_some (old rep : List Char) (fuel : Nat)
    (seen : List Char) (c : Char) (cs tail : List Char)
    (h : tryMatch old (c :: cs) = some tail) :
    replaceTokGo old rep (fuel + 1) seen (c :: cs) =
      expandDollar ((c :: cs).take ((c :: cs).length - tail.length))
          seen tail false rep ++
        replaceTokGo old rep fuel
          (seen ++ (c :: cs).take ((c :: cs).length - tail.length)) tail := by
  conv_lhs => unfold replaceTokGo
  show (match tryMatch old (c :: cs) with
    | some tail =>
        expandDollar ((c :: cs).take ((c :: cs).length - tail.length))
            seen tail false rep ++
          replaceTokGo old rep fuel
            (seen ++ (c :: cs).take ((c :: cs).length - tail.length)) tail
    | none => c :: replaceTokGo old rep fuel (seen ++ [c]) cs) = _
  rw [h]

theorem replaceTokGo_lit (old rep : List Char) :
    ∀ (s : List Char) (fuel : Nat) (seen r : List Char), (∀ c ∈ s, c ≠ '{') →
      replaceTokGo old rep (s.length + fuel) seen (s ++ r) =
        s ++ replaceTokGo old rep fuel (seen ++ s) r := by
  intro s
  induction s with
  | nil => intro fuel seen r _; simp
  | cons c cs ih =>
      intro fuel seen r h
      have hc := h c (List.mem_cons_self _ _)
      have hlen : (c :: cs).length + fuel = (cs.length + fuel) + 1 := by
        simp [List.length_cons]
        omega
      rw [hlen, List.cons_append,
        replaceTokGo_cons_none old rep _ (seen) c (cs ++ r)
          (tryMatch_none_of_head old (cs ++ r) hc),
        ih fuel (seen ++ [c]) r fun x hx => h x (List.mem_cons_of_mem _ hx),
        List.cons_append, List.append_assoc]
      rfl

theorem replaceTokGo_parts (old rep : List Char)
    (hone : old ≠ []) (hid : ∀ c ∈ old, isIdentChar c = true)
    (hrep : ∀ c ∈ rep, c ≠ '$') :
    ∀ (ps : List MPart) (fuel : Nat) (seen : List Char), partsOKb ps = true →
      (renderParts old ps).length ≤ fuel →
      replaceTokGo old rep fuel seen (renderParts old ps) =
        renderReplaced rep ps := by
  intro ps
  induction ps with
  | nil =>
      intro fuel seen _ _
      cases fuel <;> rfl
  | cons p rest ih =>
      intro fuel seen hok hlen
      have hokp : partOKb p = true := by
        have := List.all_eq_true.mp hok p (List.mem_cons_self _ _)
        simpa using this
      have hokrest : partsOKb rest = true := by
        unfold partsOKb
        exact List.all_eq_true.mpr fun x hx =>
          List.all_eq_true.mp hok x (List.mem_cons_of_mem _ hx)
      cases p with
      | lit s =>
          have hs : ∀ c ∈ s, c ≠ '{' := by
            intro c hcmem
            have := List.all_eq_true.mp hokp c hcmem
            simpa using this
          have hrp : renderParts old (MPart.lit s :: rest) =
              s ++ renderParts old rest := rfl
          rw [hrp] at hlen ⊢
          have hsf : s.length ≤ fuel := by
            rw [List.length_append] at hlen
            omega
          have hfe : fuel = s.length + (fuel - s.length) := by omega
          rw [hfe, replaceTokGo_lit old rep s _ _ _ hs,
            ih (fuel - s.length) (seen ++ s) hokrest (by
              rw [List.length_append] at hlen
              omega)]
          rfl
      | tok w1 w2 =>
          simp only [partOKb, Bool.and_eq_true] at hokp
          have hw1 : ∀ c ∈ w1, isWsChar c = true :=
            List.all_eq_true.mp hokp.1
          have hw2 : ∀ c ∈ w2, isWsChar c = true :=
            List.all_eq_true.mp hokp.2
          have hrp : renderParts old (MPart.tok w1 w2 :: rest) =
              '{' :: '{' :: ((w1 ++ (old ++ (w2 ++ ('}' :: '}' ::
                renderParts old rest))))) := by
            show renderPart old (MPart.tok w1 w2) ++ renderParts old rest = _
            unfold renderPart
            simp [List.append_assoc]
          rw [hrp] at hlen ⊢
          cases fuel with
          | zero => simp at hlen
          | succ f =>
              rw [replaceTokGo_cons_some old rep f seen '{'
                ('{' :: (w1 ++ (old ++ (w2 ++ ('}' :: '}' ::
                  renderParts old rest)))))
                (renderParts old rest)
                (tryMatch_token old w1 w2 (renderParts old rest) hone hid
                  hw1 hw2)]
              rw [expandDollar_no_dollar _ _ _ rep hrep]
              rw [ih f _ hokrest (by
                simp only [List.length_cons, List.length_append] at hlen
                omega)]
              rfl

theorem replaceMoustache_parts (oldKey nk : String) (ps : List MPart)
    (hone : oldKey.toList ≠ [])
    (hid : ∀ c ∈ oldKey.toList, isIdentChar c = true)
    (hnk : ∀ c ∈ nk.toList, c ≠ '$')
    (hok : partsOKb ps = true) :
    replaceMoustache oldKey nk (String.mk (renderParts oldKey.toList ps)) =
      String.mk (renderReplaced ('{' :: '{' :: (nk.toList ++ ['}', '}'])) ps) := by
  have hrep : ∀ c ∈ '{' :: '{' :: (nk.toList ++ ['}', '}']), c ≠ '$' := by
    intro c hc
    rcases List.mem_cons.mp hc with rfl | hc
    · decide
    rcases List.mem_cons.mp hc with rfl | hc
    · decide
    rcases List.mem_append.mp hc with hc | hc
    · exact hnk c hc
    · rcases List.mem_cons.mp hc with rfl | hc
      · decide
      rcases List.mem_cons.mp hc with rfl | hc
      · decide
      · simp at hc
  unfold replaceMoustache
  exact congrArg String.mk
    (replaceTokGo_parts oldKey.toList _ hone hid hrep ps _ [] hok
      (Nat.le_refl _))

/-- C1: renaming oldKey to a whitespace-normalized, non-empty, different
newKey on input_schema rewrites the schema (newKey bound to the value
previously under oldKey, oldKey gone), rewrites every moustache token of
oldKey in both messages to the token of newKey, and issues an edge update
repointing every edge into this node whose target handle is oldKey. -/
theorem rename_input_schema_correct
    (id newKey oldKey nk : String) (nodeData : JVal)
    (cfg sfs : List (String × JVal)) (v : JVal) (ps1 ps2 : List MPart)
    (hnd : jvIsNullish nodeData = false)
    (hcfg : jvGet nodeData "config" = JVal.obj cfg)
    (hs : olookup cfg "input_schema" = some (JVal.obj sfs))
    (hold : olookup sfs oldKey = some v)
    (hne : oldKey ≠ nk)
    (hnorm : jsNormalizeWs newKey = nk)
    (hnkne : nk ≠ "")
    (hone : oldKey.toList ≠ [])
    (hid2 : ∀ c ∈ oldKey.toList, isIdentChar c = true)
    (hdollar : ∀ c ∈ nk.toList, c ≠ '$')
    (hp1 : partsOKb ps1 = true) (hp2 : partsOKb ps2 = true)
    (hsm : olookup cfg "system_message" =
      some (JVal.str (String.mk (renderParts oldKey.toList ps1))))
    (hum : olookup cfg "user_message" =
      some (JVal.str (String.mk (renderParts oldKey.toList ps2))))
    (hm1 : String.mk (renderParts oldKey.toList ps1) ≠ "")
    (hm2 : String.mk (renderParts oldKey.toList ps2) ≠ "") :
    handleSchemaKeyEdit id nodeData oldKey newKey "input_schema" =
      Except.ok (some ⟨JVal.obj (objSetKey (objSetKey (objSetKey cfg
          "input_schema" (JVal.obj (objDelete (objSetKey sfs nk v) oldKey)))
          "system_message" (JVal.str (String.mk (renderReplaced
            ('{' :: '{' :: (nk.toList ++ ['}', '}'])) ps1))))
          "user_message" (JVal.str (String.mk (renderReplaced
            ('{' :: '{' :: (nk.toList ++ ['}', '}'])) ps2)))),
        ⟨id, oldKey, nk, "input_schema"⟩⟩) ∧
    olookup (objDelete (objSetKey sfs nk v) oldKey) nk = some v ∧
    olookup (objDelete (objSetKey sfs nk v) oldKey) oldKey = none ∧
    (∀ edges : List Edge,
      updateEdgesOnHandleRename edges ⟨id, oldKey, nk, "input_schema"⟩ =
        edges.map fun e =>
          if e.target = id ∧ e.targetHandle = oldKey then
            { e with targetHandle := nk } else e) := by
  have htrim : jsTrim nk = nk := hnorm ▸ jsTrim_jsNormalizeWs newKey
  have hchain : jvChain2 nodeData "config" "input_schema" = JVal.obj sfs := by
    unfold jvChain2
    rw [if_neg (by simp [hnd]), hcfg]
    simp [jvIsNullish, jvGet, hs]
  have hchainS : jvChain2 nodeData "config" "system_message" =
      JVal.str (String.mk (renderParts oldKey.toList ps1)) := by
    unfold jvChain2
    rw [if_neg (by simp [hnd]), hcfg]
    simp [jvIsNullish, jvGet, hsm]
  have hchainU : jvChain2 nodeData "config" "user_message" =
      JVal.str (String.mk (renderParts oldKey.toList ps2)) := by
    unfold jvChain2
    rw [if_neg (by simp [hnd]), hcfg]
    simp [jvIsNullish, jvGet, hum]
  have hsv : jvGet (JVal.obj cfg) "input_schema" = JVal.obj sfs := by
    simp [jvGet, hs]
  have hsv2 : jvGet (JVal.obj sfs) oldKey = v := by
    simp [jvGet, hold]
  have hmv1 : updateMessageVariables (JVal.str (String.mk (renderParts
      oldKey.toList ps1))) oldKey nk = Except.ok (JVal.str (String.mk
      (renderReplaced ('{' :: '{' :: (nk.toList ++ ['}', '}'])) ps1))) := by
    unfold updateMessageVariables
    rw [if_neg (by simp [jvTruthy]; exact hm1)]
    rw [if_neg (by
      simp [jsRegExpValid_ident oldKey (List.all_eq_true.mpr hid2)])]
    show Except.ok (JVal.str (replaceMoustache oldKey nk
      (String.mk (renderParts oldKey.toList ps1)))) = _
    rw [replaceMoustache_parts oldKey nk ps1 hone hid2 hdollar hp1]
  have hmv2 : updateMessageVariables (JVal.str (String.mk (renderParts
      oldKey.toList ps2))) oldKey nk = Except.ok (JVal.str (String.mk
      (renderReplaced ('{' :: '{' :: (nk.toList ++ ['}', '}'])) ps2))) := by
    unfold updateMessageVariables
    rw [if_neg (by simp [jvTruthy]; exact hm2)]
    rw [if_neg (by
      simp [jsRegExpValid_ident oldKey (List.all_eq_true.mpr hid2)])]
    show Except.ok (JVal.str (replaceMoustache oldKey nk
      (String.mk (renderParts oldKey.toList ps2)))) = _
    rw [replaceMoustache_parts oldKey nk ps2 hone hid2 hdollar hp2]
  have hm1d : (String.mk (renderParts oldKey.data ps1)) ≠ "" := hm1
  have hm2d : (String.mk (renderParts oldKey.data ps2)) ≠ "" := hm2
  have hmv1d : updateMessageVariables (JVal.str (String.mk (renderParts
      oldKey.data ps1))) oldKey nk = Except.ok (JVal.str (String.mk
      (renderReplaced ('{' :: '{' :: (nk.data ++ ['}', '}'])) ps1))) := hmv1
  have hmv2d : updateMessageVariables (JVal.str (String.mk (renderParts
      oldKey.data ps2))) oldKey nk = Except.ok (JVal.str (String.mk
      (renderReplaced ('{' :: '{' :: (nk.data ++ ['}', '}'])) ps2))) := hmv2
  refine ⟨?_, ?_, ?_, ?_⟩
  · simp only [handleSchemaKeyEdit, hnorm]
    rw [if_neg (by
      push_neg
      refine ⟨fun hh => hne hh, ?_⟩
      rw [htrim]
      exact hnkne)]
    rw [hnd, hcfg]
    simp [hchain, hchainS, hchainU, hsv, hsv2, jvIsNullish, jvFields,
      jvTruthy, hm1d, hm2d, hmv1d, hmv2d, bind, Except.bind, pure,
      Except.pure]
  · rw [olookup_objDelete_ne _ _ _ (Ne.symm hne), olookup_objSetKey_self]
  · exact olookup_objDelete_self _ _
  · intro edges
    rfl

/-- A node whose input_schema has key "foo" and whose messages contain
moustache tokens for "foo" with and without interior whitespace. -/
def c1Node : JVal :=
  JVal.obj [("config", JVal.obj [
    ("input_schema", JVal.obj [("foo", JVal.str "str")]),
    ("system_message", JVal.str "see \x7b\x7b foo \x7d\x7d"),
    ("user_message", JVal.str "use \x7b\x7bfoo\x7d\x7d now")])]

theorem rename_input_schema_correct_witness :
    handleSchemaKeyEdit "n1" c1Node "foo" "bar" "input_schema" =
      Except.ok (some ⟨JVal.obj [
        ("input_schema", JVal.obj [("bar", JVal.str "str")]),
        ("system_message", JVal.str "see \x7b\x7bbar\x7d\x7d"),
        ("user_message", JVal.str "use \x7b\x7bbar\x7d\x7d now")],
        ⟨"n1", "foo", "bar", "input_schema"⟩⟩) ∧
    updateEdgesOnHandleRename
        [⟨"n0", "h", "n1", "foo"⟩, ⟨"n0", "h", "n1", "x"⟩]
        ⟨"n1", "foo", "bar", "input_schema"⟩ =
      [⟨"n0", "h", "n1", "bar"⟩, ⟨"n0", "h", "n1", "x"⟩] := by
  obtain ⟨h1, h2, h3, h4⟩ := rename_input_schema_correct "n1" "bar" "foo" "bar"
    c1Node
    [("input_schema", JVal.obj [("foo", JVal.str "str")]),
     ("system_message", JVal.str "see \x7b\x7b foo \x7d\x7d"),
     ("user_message", JVal.str "use \x7b\x7bfoo\x7d\x7d now")]
    [("foo", JVal.str "str")] (JVal.str "str")
    [MPart.lit "see ".toList, MPart.tok [' '] [' ']]
    [MPart.lit "use ".toList, MPart.tok [] [], MPart.lit " now".toList]
    rfl rfl rfl rfl (by decide) rfl (by decide) (by decide) (by decide)
    (by decide) (by decide) (by decide) rfl rfl (by decide) (by decide)
  exact ⟨h1.trans rfl,
    (h4 [⟨"n0", "h", "n1", "foo"⟩, ⟨"n0", "h", "n1", "x"⟩]).trans rfl⟩

/-- Whether a handleSchemaKeyEdit call returned normally with an update. -/
def renameOkSome : Except Unit (Option RenameEffects) → Bool
  | Except.ok (some _) => true
  | _ => false

/-- The new config a successful handleSchemaKeyEdit call dispatches
(undefined when no update was produced). -/
def renameNewConfig : Except Unit (Option RenameEffects) → JVal
  | Except.ok (some e) => e.newConfig
  | _ => JVal.undef

/-- C1 fails as stated: the replacement string '\x7b\x7b' + newKey +
'\x7d\x7d' is subject to String.prototype.replace's `$`-substitution, so
for newKey = "$&" (whitespace-normalized, non-empty, distinct from
oldKey — inside the claim's range) the token "\x7b\x7b foo \x7d\x7d" in
the system_message is rewritten to
"\x7b\x7b\x7b\x7b foo \x7d\x7d\x7d\x7d" (the match re-inserted), not to
the claimed literal "\x7b\x7b$&\x7d\x7d". -/
theorem rename_dollar_counterexample :
    jvGet (renameNewConfig (handleSchemaKeyEdit "n1" c1Node "foo" "$&"
        "input_schema")) "system_message" =
      JVal.str "see \x7b\x7b\x7b\x7b foo \x7d\x7d\x7d\x7d" ∧
    JVal.str "see \x7b\x7b\x7b\x7b foo \x7d\x7d\x7d\x7d" ≠
      JVal.str "see \x7b\x7b$&\x7d\x7d" :=
  ⟨rfl, by decide⟩

/-- A node whose input_schema contains a regex-metacharacter key "(" next
to "bar", and a truthy system_message. -/
def c5CexNode : JVal :=
  JVal.obj [("config", JVal.obj [
    ("input_schema", JVal.obj [("(", JVal.str "str"),
      ("bar", JVal.str "int")]),
    ("system_message", JVal.str "hello")])]

/-- C5 fails as stated: its schema contains both oldKey "(" and the
normalized newKey "bar", yet the rename does not silently overwrite —
the RegExp constructor inside updateMessageVariables throws on the
unbalanced "(" because the node carries a truthy system_message, so the
call errors and no schema update happens at all. -/
theorem rename_collision_throw_counterexample :
    handleSchemaKeyEdit "n1" c5CexNode "(" "bar" "input_schema" =
      Except.error () := rfl

/-- C5 (amended): for identifier oldKeys (whose moustache pattern is a
valid regex) and falsy-or-string message fields, renaming oldKey onto
another existing key nk silently overwrites that entry with oldKey's
value and deletes oldKey: the call returns normally with an update, the
updated config's schemaType entry maps nk to oldKey's former value, no
longer contains oldKey, and has exactly one key fewer.  Outside those
conditions the call can instead throw (see the counterexample). -/
theorem rename_collision_overwrite
    (id newKey oldKey nk schemaType : String) (nodeData : JVal)
    (cfg sfs : List (String × JVal)) (v w : JVal)
    (hnd : jvIsNullish nodeData = false)
    (hcfg : jvGet nodeData "config" = JVal.obj cfg)
    (hs : olookup cfg schemaType = some (JVal.obj sfs))
    (hnodup : objNodupKeys sfs)
    (hold : olookup sfs oldKey = some v)
    (hw : olookup sfs nk = some w)
    (hne : oldKey ≠ nk)
    (hnorm : jsNormalizeWs newKey = nk)
    (hnkne : nk ≠ "")
    (hident : oldKey.toList.all isIdentChar = true)
    (hms : msgSafe (jvChain2 nodeData "config" "system_message") = true)
    (hmu : msgSafe (jvChain2 nodeData "config" "user_message") = true) :
    renameOkSome (handleSchemaKeyEdit id nodeData oldKey newKey schemaType) =
      true ∧
    jvFields (jvGet (renameNewConfig (handleSchemaKeyEdit id nodeData oldKey
      newKey schemaType)) schemaType) = objDelete (objSetKey sfs nk v) oldKey ∧
    olookup (objDelete (objSetKey sfs nk v) oldKey) nk = some v ∧
    olookup (objDelete (objSetKey sfs nk v) oldKey) oldKey = none ∧
    (objDelete (objSetKey sfs nk v) oldKey).length + 1 = sfs.length := by
  have htrim : jsTrim nk = nk := hnorm ▸ jsTrim_jsNormalizeWs newKey
  have hchain : jvChain2 nodeData "config" schemaType = JVal.obj sfs := by
    unfold jvChain2
    rw [if_neg (by simp [hnd]), hcfg]
    simp [jvIsNullish, jvGet, hs]
  have hsv : jvGet (JVal.obj cfg) schemaType = JVal.obj sfs := by
    simp [jvGet, hs]
  have hsv2 : jvGet (JVal.obj sfs) oldKey = v := by
    simp [jvGet, hold]
  obtain ⟨m1, hmv1⟩ := updateMessageVariables_ok_of_safe
    (jvChain2 nodeData "config" "system_message") oldKey nk hident hms
  obtain ⟨m2, hmv2⟩ := updateMessageVariables_ok_of_safe
    (jvChain2 nodeData "config" "user_message") oldKey nk hident hmu
  have hmain : renameOkSome (handleSchemaKeyEdit id nodeData oldKey newKey
      schemaType) = true ∧
      jvFields (jvGet (renameNewConfig (handleSchemaKeyEdit id nodeData oldKey
        newKey schemaType)) schemaType) =
        objDelete (objSetKey sfs nk v) oldKey := by
    by_cases hst : schemaType = "input_schema"
    · subst hst
      by_cases ht1 : jvTruthy (jvChain2 nodeData "config" "system_message") = true
      · by_cases ht2 : jvTruthy (jvChain2 nodeData "config" "user_message") = true
        · have hres : handleSchemaKeyEdit id nodeData oldKey newKey
              "input_schema" = Except.ok (some ⟨JVal.obj (objSetKey (objSetKey
                (objSetKey cfg "input_schema" (JVal.obj (objDelete (objSetKey
                  sfs nk v) oldKey))) "system_message" m1) "user_message" m2),
              ⟨id, oldKey, nk, "input_schema"⟩⟩) := by
            simp only [handleSchemaKeyEdit, hnorm]
            rw [if_neg (by
              push_neg
              refine ⟨fun hh => hne hh, ?_⟩
              rw [htrim]
              exact hnkne)]
            rw [hnd, hcfg]
            simp [hchain, hsv, hsv2, ht1, ht2, hmv1, hmv2, jvIsNullish,
              jvFields, bind, Except.bind, pure, Except.pure]
          rw [hres]
          exact ⟨rfl, by
            simp [renameNewConfig, jvGet_obj, olookup_objSetKey_self,
              olookup_objSetKey_ne, jvFields]⟩
        · have hres : handleSchemaKeyEdit id nodeData oldKey newKey
              "input_schema" = Except.ok (some ⟨JVal.obj (objSetKey
                (objSetKey cfg "input_schema" (JVal.obj (objDelete (objSetKey
                  sfs nk v) oldKey))) "system_message" m1),
              ⟨id, oldKey, nk, "input_schema"⟩⟩) := by
            simp only [handleSchemaKeyEdit, hnorm]
            rw [if_neg (by
              push_neg
              refine ⟨fun hh => hne hh, ?_⟩
              rw [htrim]
              exact hnkne)]
            rw [hnd, hcfg]
            simp [hchain, hsv, hsv2, ht1, ht2, hmv1, hmv2, jvIsNullish,
              jvFields, bind, Except.bind, pure, Except.pure]
          rw [hres]
          exact ⟨rfl, by
            simp [renameNewConfig, jvGet_obj, olookup_objSetKey_self,
              olookup_objSetKey_ne, jvFields]⟩
      · by_cases ht2 : jvTruthy (jvChain2 nodeData "config" "user_message") = true
        · have hres : handleSchemaKeyEdit id nodeData oldKey newKey
              "input_schema" = Except.ok (some ⟨JVal.obj (objSetKey
                (objSetKey cfg "input_schema" (JVal.obj (objDelete (objSetKey
                  sfs nk v) oldKey))) "user_message" m2),
              ⟨id, oldKey, nk, "input_schema"⟩⟩) := by
            simp only [handleSchemaKeyEdit, hnorm]
            rw [if_neg (by
              push_neg
              refine ⟨fun hh => hne hh, ?_⟩
              rw [htrim]
              exact hnkne)]
            rw [hnd, hcfg]
            simp [hchain, hsv, hsv2, ht1, ht2, hmv1, hmv2, jvIsNullish,
              jvFields, bind, Except.bind, pure, Except.pure]
          rw [hres]
          exact ⟨rfl, by
            simp [renameNewConfig, jvGet_obj, olookup_objSetKey_self,
              olookup_objSetKey_ne, jvFields]⟩
        · have hres : handleSchemaKeyEdit id nodeData oldKey newKey
              "input_schema" = Except.ok (some ⟨JVal.obj (objSetKey cfg
                "input_schema" (JVal.obj (objDelete (objSetKey sfs nk v)
                  oldKey))),
              ⟨id, oldKey, nk, "input_schema"⟩⟩) := by
            simp only [handleSchemaKeyEdit, hnorm]
            rw [if_neg (by
              push_neg
              refine ⟨fun hh => hne hh, ?_⟩
              rw [htrim]
              exact hnkne)]
            rw [hnd, hcfg]
            simp [hchain, hsv, hsv2, ht1, ht2, jvIsNullish,
              jvFields, bind, Except.bind, pure, Except.pure]
          rw [hres]
          exact ⟨rfl, by
            simp [renameNewConfig, jvGet_obj, olookup_objSetKey_self,
              jvFields]⟩
    · have hres : handleSchemaKeyEdit id nodeData oldKey newKey schemaType =
          Except.ok (some ⟨JVal.obj (objSetKey cfg schemaType (JVal.obj
            (objDelete (objSetKey sfs nk v) oldKey))),
          ⟨id, oldKey, nk, schemaType⟩⟩) := by
        simp only [handleSchemaKeyEdit, hnorm]
        rw [if_neg (by
          push_neg
          refine ⟨fun hh => hne hh, ?_⟩
          rw [htrim]
          exact hnkne)]
        rw [hnd, hcfg]
        simp [hst, hchain, hsv, hsv2, jvIsNullish, jvFields, bind,
          Except.bind, pure, Except.pure]
      rw [hres]
      exact ⟨rfl, by
        simp [renameNewConfig, jvGet_obj, olookup_objSetKey_self, jvFields]⟩
  refine ⟨hmain.1, hmain.2, ?_, ?_, ?_⟩
  · rw [olookup_objDelete_ne _ _ _ (Ne.symm hne), olookup_objSetKey_self]
  · exact olookup_objDelete_self _ _
  · have hany : (sfs.any fun kv => kv.1 = nk) = true :=
      any_key_of_olookup_some hw
    have hnodup2 : objNodupKeys (objSetKey sfs nk v) :=
      objNodupKeys_objSetKey hnodup
    have hmem : olookup (objSetKey sfs nk v) oldKey ≠ none := by
      rw [olookup_objSetKey_ne _ _ _ _ hne, hold]
      simp
    have h1 := length_objDelete_of_nodup (objSetKey sfs nk v) oldKey
      hnodup2 hmem
    rw [length_objSetKey_of_any sfs nk v hany] at h1
    exact h1

/-- A node with a colliding pair of schema keys and a truthy
system_message containing a moustache token. -/
def c5Node : JVal :=
  JVal.obj [("config", JVal.obj [
    ("input_schema", JVal.obj [("foo", JVal.str "str"),
      ("bar", JVal.str "int")]),
    ("system_message", JVal.str "hi \x7b\x7b foo \x7d\x7d")])]

theorem rename_collision_overwrite_witness :
    renameOkSome (handleSchemaKeyEdit "n1" c5Node "foo" "bar"
      "input_schema") = true ∧
    jvFields (jvGet (renameNewConfig (handleSchemaKeyEdit "n1" c5Node "foo"
      "bar" "input_schema")) "input_schema") =
      objDelete (objSetKey [("foo", JVal.str "str"), ("bar", JVal.str "int")]
        "bar" (JVal.str "str")) "foo" ∧
    olookup (objDelete (objSetKey
        [("foo", JVal.str "str"), ("bar", JVal.str "int")]
        "bar" (JVal.str "str")) "foo") "bar" = some (JVal.str "str") ∧
    olookup (objDelete (objSetKey
        [("foo", JVal.str "str"), ("bar", JVal.str "int")]
        "bar" (JVal.str "str")) "foo") "foo" = none ∧
    (objDelete (objSetKey
        [("foo", JVal.str "str"), ("bar", JVal.str "int")]
        "bar" (JVal.str "str")) "foo").length + 1 =
      ([("foo", JVal.str "str"), ("bar", JVal.str "int")] :
        List (String × JVal)).length :=
  rename_collision_overwrite "n1" "bar" "foo" "bar" "input_schema" c5Node
    [("input_schema", JVal.obj [("foo", JVal.str "str"),
      ("bar", JVal.str "int")]),
     ("system_message", JVal.str "hi \x7b\x7b foo \x7d\x7d")]
    [("foo", JVal.str "str"), ("bar", JVal.str "int")]
    (JVal.str "str") (JVal.str "int")
    rfl rfl rfl (by unfold objNodupKeys; decide) rfl rfl (by decide) rfl
    (by decide) (by decide) rfl rfl
